import Mathlib

/-!
# Verification of the `model_inspect` ZIP reader core

A shallow embedding, in Lean 4, of the read-only ZIP container reader in
`src/model_inspect/file_types/zip_file/zip_file.py`, together with proofs
about it.  Bytes are modelled as natural numbers (values `< 256` where it
matters), byte strings as `List Nat`, Python's unbounded signed integers as
`Int` (with explicit `% 2 ^ 32` / `&&& 0xFFFFFFFF` exactly where the source
masks), and fallible code as `Except PyError`.

Numeric fields that the Python source keeps non-negative by construction are
modelled as `Nat`; fields that the source manipulates with subtraction that
could in principle go negative (`_left`, `_compress_left`, seek arithmetic)
are modelled as `Int`, and Python slice semantics for a possibly negative
stop index is modelled by `pySliceTo`.
-/

namespace ModelInspect

/-- Python `data[:k]` on a byte string for an arbitrary (possibly negative)
integer stop index `k`. -/
def pySliceTo (xs : List Nat) (k : Int) : List Nat :=
  if 0 ≤ k then xs.take k.toNat else xs.take ((xs.length : Int) + k).toNat

/-- Little-endian decoding of the first `k` bytes of a byte list
(`int.from_bytes(bs, "little")` on a `k`-byte field; missing bytes read as
zero, which only happens on records whose length was already checked). -/
def leN : Nat → List Nat → Nat
  | 0, _ => 0
  | _ + 1, [] => 0
  | k + 1, b :: rest => b + 256 * leN k rest

/-- Little-endian field of width `k` at byte offset `off` of `bs`. -/
def leAt (k : Nat) (bs : List Nat) (off : Nat) : Nat :=
  leN k (bs.drop off)

/-! ## CRC-32

`zlib.crc32` (standard CRC-32, polynomial `0xEDB88320`, init/final xor
`0xFFFFFFFF`), used by `ZipExtFile._update_crc` and for filename CRCs, and
the one-byte primitive used by `ZipDecrypter`. -/

/-- One shift-xor round of `ZipDecrypter._gen_crc`. -/
def genCrcRound (crc : Nat) : Nat :=
  if crc % 2 = 1 then (crc / 2) ^^^ 0xEDB88320 else crc / 2

/-- `ZipDecrypter._gen_crc`: eight rounds, masked to 32 bits.  The class
builds `_crctable[i] = _gen_crc(i)` once; we inline the table as a
function. -/
def genCrc (crc : Nat) : Nat :=
  (genCrcRound^[8] crc) &&& 0xFFFFFFFF

/-- One byte step of the standard CRC-32 (the table-driven update that
`zlib.crc32` performs per byte). -/
def crc32Step (crc b : Nat) : Nat :=
  (crc >>> 8) ^^^ genCrc ((crc ^^^ b) &&& 0xFF)

/-- `zlib.crc32(data, value)`. -/
def crc32 (data : List Nat) (value : Nat) : Nat :=
  (data.foldl crc32Step (value ^^^ 0xFFFFFFFF)) ^^^ 0xFFFFFFFF

/-! ## `ZipDecrypter` (zip_file.py lines 721-818)

The PKWARE legacy stream cipher.  The three key registers are the whole
mutable state of a `ZipDecrypter` instance. -/

/-- The three 32-bit key registers of `ZipDecrypter`. -/
structure Keys where
  key0 : Nat
  key1 : Nat
  key2 : Nat
deriving Repr, DecidableEq

namespace ZipDecrypter

/-- `ZipDecrypter._compute_crc32_byte(ch, crc)`. -/
def computeCrc32Byte (ch crc : Nat) : Nat :=
  (crc >>> 8) ^^^ genCrc ((crc ^^^ ch) &&& 0xFF)

/-- `ZipDecrypter._update_keys(byte_value)`: the source masks `key1` to 32
bits after the addition and again after the multiply-add. -/
def updateKeys (byteValue : Nat) (k : Keys) : Keys :=
  let key0 := computeCrc32Byte byteValue k.key0
  let key1a := (k.key1 + (key0 &&& 0xFF)) &&& 0xFFFFFFFF
  let key1 := (key1a * 134775813 + 1) &&& 0xFFFFFFFF
  let key2 := computeCrc32Byte ((key1 >>> 24) &&& 0xFF) k.key2
  ⟨key0, key1, key2⟩

/-- The fixed initial key constants of `ZipDecrypter.__init__`. -/
def initialKeys : Keys :=
  ⟨0x12345678, 0x23456789, 0x34567890⟩

/-- `ZipDecrypter.__init__(password)`: keys are seeded from the constants
and updated once per password byte, before any data is processed. -/
def initKeys (password : List Nat) : Keys :=
  password.foldl (fun k c => updateKeys c k) initialKeys

/-- The keystream transform applied to one ciphertext byte in
`ZipDecrypter.decrypt` (before the key update). -/
def decryptByte (k : Keys) (byte : Nat) : Nat :=
  let temp := k.key2 ||| 2
  byte ^^^ (((temp * (temp ^^^ 1)) >>> 8) &&& 0xFF)

/-- `ZipDecrypter.decrypt(data)`: per byte, decrypt with the current keys,
then feed the decrypted (plaintext) byte into the key update.  Returns the
final key state together with the plaintext. -/
def decrypt (k : Keys) : List Nat → Keys × List Nat
  | [] => (k, [])
  | byte :: rest =>
      let d := decryptByte k byte
      let k1 := updateKeys d k
      let (k2, out) := decrypt k1 rest
      (k2, d :: out)

end ZipDecrypter

/-! ## Specification-side decrypter (for the refinement claim)

These definitions follow the natural-language specification's equations
(spec §4.4) word for word, to be compared with the source-derived
definitions above: the key-1 update is written as a single multiply-add
reduced `mod 2 ^ 32`, and the byte transform as
`c XOR (((t * (t XOR 1)) >> 8) & 0xFF)` with `t = key2 | 2`. -/

namespace SpecCipher

/-- `crc32_step(b, crc)` of the spec: table-driven one-byte CRC-32 update
with the polynomial `0xEDB88320`. -/
def crc32StepPoly (b crc : Nat) : Nat :=
  (crc >>> 8) ^^^ genCrc ((crc ^^^ b) &&& 0xFF)

/-- The spec's key update rule per processed plaintext byte `b`. -/
def updateKeys (b : Nat) (k : Keys) : Keys :=
  let key0 := crc32StepPoly b k.key0
  let key1 := ((k.key1 + (key0 &&& 0xFF)) * 134775813 + 1) % (2 ^ 32)
  let key2 := crc32StepPoly ((key1 >>> 24) &&& 0xFF) k.key2
  ⟨key0, key1, key2⟩

/-- The spec's fixed key constants. -/
def initialKeys : Keys :=
  ⟨0x12345678, 0x23456789, 0x34567890⟩

/-- Initialization per the spec: consume the password byte-by-byte through
the same key-update function before any data is decrypted. -/
def initKeys (password : List Nat) : Keys :=
  password.foldl (fun k c => updateKeys c k) initialKeys

/-- The spec's decryption of one ciphertext byte. -/
def decryptByte (k : Keys) (c : Nat) : Nat :=
  let t := k.key2 ||| 2
  c ^^^ (((t * (t ^^^ 1)) >>> 8) &&& 0xFF)

/-- The spec's stream: decrypt a byte, then feed the plaintext byte into
the key update. -/
def decrypt (k : Keys) : List Nat → Keys × List Nat
  | [] => (k, [])
  | c :: rest =>
      let d := decryptByte k c
      let k1 := updateKeys d k
      let (k2, out) := decrypt k1 rest
      (k2, d :: out)

end SpecCipher

/-! ## Errors

The dynamic exception kinds the read path can raise, as a tagged type.
`fuelExhausted` is not a Python exception: it models non-termination of a
source `while` loop (the embedding of every loop takes a fuel argument; all
theorems below hold for every sufficient fuel). -/

inductive PyError where
  | badZipFile (msg : String)
  | notImplemented (msg : String)
  | runtimeError (msg : String)
  | valueError (msg : String)
  | typeError (msg : String)
  | unsupportedOperation (msg : String)
  | osError
  | eofError
  | indexError
  | fuelExhausted
deriving Repr, DecidableEq

/-! ## Module-level constants (zip_file.py header / constants.py)

`zip_file.py` references these names without importing them; `constants.py`
in the same package carries their values, which the module header comments
duplicate. -/

def ZIP_STORED : Nat := 0
def ZIP_DEFLATED : Nat := 8
def ZIP_BZIP2 : Nat := 12
def ZIP_LZMA : Nat := 14
def MASK_ENCRYPTED : Nat := 1
def MASK_USE_DATA_DESCRIPTOR : Nat := 8
def MASK_COMPRESSED_PATCH : Nat := 32
def MASK_STRONG_ENCRYPTION : Nat := 64
def sizeFileHeader : Nat := 30
def sizeEndCentDir : Nat := 22
def stringFileHeader : List Nat := [0x50, 0x4B, 0x03, 0x04]
def stringEndArchive : List Nat := [0x50, 0x4B, 0x05, 0x06]
def stringEndArchive64Locator : List Nat := [0x50, 0x4B, 0x06, 0x07]
def stringEndArchive64 : List Nat := [0x50, 0x4B, 0x06, 0x06]
def MIN_READ_SIZE : Nat := 4096
def MAX_SEEK_READ : Nat := 1 <<< 24
/-- `ZipExtFile.MAX_N`: Python's `1 << 31 - 1` parses as `1 << 30`. -/
def MAX_N : Nat := 1 <<< 30

/-! ## Byte sources

`FileObj` models the `_SharedFile` view over the archive's byte source used
by one entry reader: the full archive bytes plus this handle's tracked
position (`_SharedFile._pos`).  Reads reposition to the tracked offset and
advance it by the number of bytes actually read. -/

structure FileObj where
  data : List Nat
  pos : Nat
  seekableFlag : Bool
deriving Repr, DecidableEq

/-- `_SharedFile.read(n)` for `n ≥ 0`: up to `n` bytes from the tracked
position. -/
def FileObj.read (f : FileObj) (n : Nat) : List Nat × FileObj :=
  let chunk := (f.data.drop f.pos).take n
  (chunk, { f with pos := f.pos + chunk.length })

/-- A relative seek (`whence=1`) on the underlying OS file: seeking past
EOF is allowed, a negative target raises OSError. -/
def FileObj.seekCur (f : FileObj) (delta : Int) : Except PyError FileObj :=
  let target : Int := (f.pos : Int) + delta
  if target < 0 then .error .osError else .ok { f with pos := target.toNat }

/-! ## End-of-central-directory discovery (`_end_rec_data`, lines 238-311)

`Source` is the byte source handed to `ZipFile`: either a path-opened OS
file or an externally supplied in-memory stream.  The two differ in one
observable way exercised by this code: an end-relative seek to a negative
position raises `OSError` on an OS file, while `io.BytesIO` clamps the
position to 0 and succeeds. -/

inductive SrcKind where
  | osFile
  | memBuf
deriving Repr, DecidableEq

structure Source where
  data : List Nat
  kind : SrcKind
deriving Repr, DecidableEq

/-- `fpin.seek(off, 2)`: position relative to the end of the source. -/
def Source.seekEnd (src : Source) (off : Int) : Except PyError Nat :=
  if (src.data.length : Int) + off < 0 then
    match src.kind with
    | .osFile => .error .osError
    | .memBuf => .ok 0
  else .ok ((src.data.length : Int) + off).toNat

/-- The seven 64-bit fields the ZIP64 EOCD contributes.  The source appends
them to the `endrec` dictionary under fresh string keys (it does not
overwrite the 32-bit fields), so they are modelled as an optional
extension record. -/
structure Zip64Rec where
  signature : List Nat
  diskNum : Nat
  diskDir : Nat
  dircount : Nat
  dircount2 : Nat
  dirsize : Nat
  diroffset : Nat
deriving Repr, DecidableEq

/-- The `endrec` list built by `_end_rec_data`: the unpacked
`structEndArchive` fields plus the appended comment and record location. -/
structure EndRec where
  signature : List Nat
  diskNumber : Nat
  diskStart : Nat
  entriesThisDisk : Nat
  entriesTotal : Nat
  size : Nat
  offset : Nat
  commentSize : Nat
  comment : List Nat
  location : Nat
  zip64 : Option Zip64Rec
deriving Repr, DecidableEq

/-- `struct.unpack(structEndArchive, bs)` (layout `<4s4H2LH`) plus the two
appended entries. -/
def unpackEndRec (bs : List Nat) (comment : List Nat) (location : Nat) : EndRec :=
  { signature := bs.take 4
    diskNumber := leAt 2 bs 4
    diskStart := leAt 2 bs 6
    entriesThisDisk := leAt 2 bs 8
    entriesTotal := leAt 2 bs 10
    size := leAt 4 bs 12
    offset := leAt 4 bs 16
    commentSize := leAt 2 bs 20
    comment := comment
    location := location
    zip64 := none }

/-- `_end_rec_data_64(fpin, offset, endrec)` (lines 139-235): probe for a
ZIP64 locator (layout `<4sLQL`) and, behind it, the ZIP64 EOCD record
(layout `<4sQ2H2L4Q`).  Only the first seek is wrapped in
`try/except OSError`. -/
def endRecData64 (src : Source) (offset : Int) (endrec : EndRec) : Except PyError EndRec :=
  match src.seekEnd (offset - 20) with
  | .error .osError => .ok endrec
  | .error e => .error e
  | .ok p =>
    let data := (src.data.drop p).take 20
    if data.length ≠ 20 then .ok endrec
    else
      let sig := data.take 4
      let diskno := leAt 4 data 4
      let disks := leAt 4 data 16
      if sig ≠ stringEndArchive64Locator then .ok endrec
      else if diskno ≠ 0 ∨ disks > 1 then
        .error (.badZipFile "zipfiles that span multiple disks are not supported")
      else
        match src.seekEnd (offset - 20 - 56) with
        | .error e => .error e
        | .ok p2 =>
          let d2 := (src.data.drop p2).take 56
          if d2.length ≠ 56 then .ok endrec
          else if d2.take 4 ≠ stringEndArchive64 then .ok endrec
          else
            let z64 : Zip64Rec :=
              { signature := d2.take 4
                diskNum := leAt 4 d2 16
                diskDir := leAt 4 d2 20
                dircount := leAt 8 d2 24
                dircount2 := leAt 8 d2 32
                dirsize := leAt 8 d2 40
                diroffset := leAt 8 d2 48 }
            .ok { endrec with zip64 := some z64 }

/-- Python `bytes.rfind(needle)` restricted to full occurrences: the
greatest index at which `needle` occurs in `hay`. -/
def rfindSig (needle hay : List Nat) : Option Nat :=
  (List.range (hay.length + 1)).reverse.find?
    (fun i => (hay.drop i).take needle.length == needle)

/-- The backward-scan arm of `_end_rec_data` (lines 281-311): scan the
last 64 KiB + 22 bytes for the EOCD signature, take the length-prefixed
comment verbatim, and record the candidate's offset.  Nat subtraction
clamps at zero exactly like the source's
`max(filesize - (1 << 16) - sizeEndCentDir, 0)`. -/
def endRecDataScan (src : Source) (filesize maxCommentStart : Nat) :
    Except PyError (Option EndRec) :=
  let scan := src.data.drop maxCommentStart
  match rfindSig stringEndArchive scan with
  | none => .ok none
  | some start =>
    let recData := (scan.drop start).take sizeEndCentDir
    if recData.length ≠ sizeEndCentDir then .ok none
    else
      let commentSize := leAt 2 recData 20
      let comment := (scan.drop (start + sizeEndCentDir)).take commentSize
      let endrec := unpackEndRec recData comment (maxCommentStart + start)
      (endRecData64 src ((maxCommentStart + start : Int) - filesize) endrec).map some

/-- `_end_rec_data(fpin)` (lines 238-311): the fixed-offset fast path (no
archive comment), else the backward scan.  The `try/except OSError` around
the first seek returns `None` (`.ok none`). -/
def endRecData (src : Source) : Except PyError (Option EndRec) :=
  match src.seekEnd (-(22 : Int)) with
  | .error .osError => .ok none
  | .error e => .error e
  | .ok p =>
    let data := src.data.drop p
    if data.length = sizeEndCentDir ∧ data.take 4 = stringEndArchive ∧
        data.drop 20 = [0, 0] then
      (endRecData64 src (-(22 : Int))
        (unpackEndRec data [] (src.data.length - sizeEndCentDir))).map some
    else
      endRecDataScan src src.data.length
        (src.data.length - (1 <<< 16) - sizeEndCentDir)

/-- The endrec-discovery prefix of `ZipFile._RealGetContents` (lines
1761-1769): `OSError` from discovery and a `None` result both become
`BadZipFile("File is not a zip file")`; other exceptions propagate. -/
def realGetContentsEndrec (src : Source) : Except PyError EndRec :=
  match endRecData src with
  | .error .osError => .error (.badZipFile "File is not a zip file")
  | .error e => .error e
  | .ok none => .error (.badZipFile "File is not a zip file")
  | .ok (some e) => .ok e

/-! ## Entry descriptors (`ZipInfo`) and end-offset assignment -/

/-- The `ZipInfo` fields the read path consumes.  `origFilename` holds the
stored (encoded) filename bytes; `name` is the decoded, sanitized name used
in error messages. -/
structure ZipInfoM where
  origFilename : List Nat
  name : String
  headerOffset : Nat
  flagBits : Nat
  compressType : Nat
  compressSize : Nat
  fileSize : Nat
  crcValue : Nat
  rawTime : Option Nat
  endOffset : Option Nat
deriving Repr, DecidableEq

/-- The working copy `sorted(self.filelist, key=..., reverse=True)` in
`_RealGetContents` (line 1860): stable sort by header offset,
descending. -/
def sortByHeaderDesc (infos : List ZipInfoM) : List ZipInfoM :=
  infos.mergeSort (fun a b => decide (b.headerOffset ≤ a.headerOffset))

/-- The assignment loop of `_RealGetContents` (lines 1859-1862): walk the
descending-sorted copy, give each descriptor the running boundary and move
the boundary to this descriptor's header offset. -/
def assignEnds (endOff : Nat) : List ZipInfoM → List ZipInfoM
  | [] => []
  | z :: rest => { z with endOffset := some endOff } :: assignEnds z.headerOffset rest

/-- End-offset assignment, seeded with the central directory's start
offset. -/
def assignEndOffsets (startDir : Nat) (infos : List ZipInfoM) : List ZipInfoM :=
  assignEnds startDir (sortByHeaderDesc infos)

/-! ## Codec dispatch

The decompression codecs (`zlib.decompressobj(-15)`, `bz2.BZ2Decompressor`,
the LZMA wrapper) are external collaborators: the reader only feeds them
compressed bytes and consumes whatever plaintext they emit.  They are
modelled as an abstract interface over an opaque codec state (`Nat`); every
theorem below quantifies over the codec, so the results hold for all codec
behaviours.  The `d*` family is the deflate interface (`decompress` with a
`max_length` argument, `unconsumed_tail`, `flush`); the `g*` family is the
one-argument `decompress` interface shared by the bzip2 and LZMA paths of
`_read1`. -/

structure Codec where
  dInit : Nat
  dDecompress : Nat → List Nat → Nat → Nat × List Nat
  dUnconsumedTail : Nat → List Nat
  dEof : Nat → Bool
  dFlush : Nat → List Nat
  gInit : Nat
  gDecompress : Nat → List Nat → Nat × List Nat
  gEof : Nat → Bool

/-- `_get_decompressor` / `_check_compression` (lines 907-973): stored
needs no codec state; methods other than 0/8/12/14 fail fast with
`NotImplementedError` before any bytes are read. -/
def getDecompressorInit (cdc : Codec) (t : Nat) : Except PyError Nat :=
  if t = ZIP_STORED then .ok 0
  else if t = ZIP_DEFLATED then .ok cdc.dInit
  else if t = ZIP_BZIP2 then .ok cdc.gInit
  else if t = ZIP_LZMA then .ok cdc.gInit
  else .error (.notImplemented "That compression method is not supported")

/-! ## `ZipExtFile` (lines 1150-1639) -/

/-- The mutable state of one `ZipExtFile` instance.  `compressLeft` and
`left` are Python ints (the source subtracts from them), so they are
`Int`.  The `orig*` snapshot fields are taken in `__init__` when the
source is seekable and are only read behind the `seekable` guard. -/
structure ExtState where
  fileobj : FileObj
  name : String
  compressType : Nat
  compressLeft : Int
  left : Int
  dstate : Nat
  eof : Bool
  closed : Bool
  readbuffer : List Nat
  offset : Nat
  runningCrc : Nat
  expectedCrc : Option Nat
  pwd : Option (List Nat)
  decrypter : Option Keys
  seekable : Bool
  origCompressStart : Nat
  origCompressSize : Nat
  origFileSize : Nat
  origStartCrc : Nat
  origCrc : Option Nat
deriving Repr, DecidableEq

/-- Python truthiness of the password argument (`if pwd:`): present and
non-empty. -/
def pwdTruthy : Option (List Nat) → Bool
  | none => false
  | some p => !p.isEmpty

/-- `ZipExtFile._update_crc(newdata)` (lines 1441-1449): without a
reference CRC nothing is computed; with one, the running CRC is folded over
the chunk and compared against the reference only when `_eof` is set. -/
def updateCrc (st : ExtState) (newdata : List Nat) : Except PyError ExtState :=
  match st.expectedCrc with
  | none => .ok st
  | some expected =>
    let st := { st with runningCrc := crc32 newdata st.runningCrc }
    if st.eof ∧ st.runningCrc ≠ expected then
      .error (.badZipFile ("Bad CRC-32 for file " ++ st.name))
    else .ok st

/-- `ZipExtFile._read2(n)` (lines 1541-1555).  The decrypter branch calls
the instance (`self._decrypter(data)`), but `ZipDecrypter` defines no
`__call__`, so that call raises `TypeError`. -/
def read2 (st : ExtState) (n : Int) : Except PyError (List Nat × ExtState) :=
  if st.compressLeft ≤ 0 then .ok ([], st)
  else
    let n1 := max n (MIN_READ_SIZE : Int)
    let n2 := min n1 st.compressLeft
    let (data, f) := st.fileobj.read n2.toNat
    let st := { st with fileobj := f, compressLeft := st.compressLeft - data.length }
    if data.length = 0 then .error .eofError
    else
      match st.decrypter with
      | none => .ok (data, st)
      | some _ => .error (.typeError "ZipDecrypter object is not callable")

/-- The common tail of `ZipExtFile._read1` (lines 1531-1539): truncate the
produced chunk to the remaining declared uncompressed size, account for it,
force EOF at zero, and update the CRC. -/
def read1Finish (st : ExtState) (data : List Nat) : Except PyError (List Nat × ExtState) :=
  let data := pySliceTo data st.left
  let st := { st with left := st.left - data.length }
  let st := if st.left ≤ 0 then { st with eof := true } else st
  match updateCrc st data with
  | .error e => .error e
  | .ok st => .ok (data, st)

/-- `ZipExtFile._read1(n)` (lines 1488-1539). -/
def read1 (cdc : Codec) (st : ExtState) (n : Int) : Except PyError (List Nat × ExtState) :=
  if st.eof ∨ n ≤ 0 then .ok ([], st)
  else do
    let (data, st) ←
      if st.compressType = ZIP_DEFLATED then do
        let tail := cdc.dUnconsumedTail st.dstate
        if (tail.length : Int) < n then do
          let (d2, st2) ← read2 st (n - tail.length)
          pure (tail ++ d2, st2)
        else pure (tail, st)
      else read2 st n
    if st.compressType = ZIP_STORED then
      let st := { st with eof := decide (st.compressLeft ≤ (0 : Int)) }
      read1Finish st data
    else if st.compressType = ZIP_DEFLATED then
      let n2 := max n (MIN_READ_SIZE : Int)
      let (ds, out) := cdc.dDecompress st.dstate data n2.toNat
      let st := { st with dstate := ds }
      let isEof := cdc.dEof ds ||
        (decide (st.compressLeft ≤ (0 : Int)) && (cdc.dUnconsumedTail ds).isEmpty)
      let st := { st with eof := isEof }
      let out := if isEof then out ++ cdc.dFlush ds else out
      read1Finish st out
    else
      let (ds, out) := cdc.gDecompress st.dstate data
      let st := { st with dstate := ds,
                          eof := cdc.gEof ds || decide (st.compressLeft ≤ (0 : Int)) }
      read1Finish st out

/-- The `while not self._eof` accumulation loop of `ZipExtFile.read` for a
negative/absent byte count (lines 1407-1414). -/
def readAllLoop (cdc : Codec) : Nat → ExtState → List Nat →
    Except PyError (List Nat × ExtState)
  | 0, _, _ => .error .fuelExhausted
  | fuel + 1, st, buf =>
    if st.eof then .ok (buf, st)
    else do
      let (d, st) ← read1 cdc st (MAX_N : Int)
      readAllLoop cdc fuel st (buf ++ d)

/-- The `while n > 0 and not self._eof` loop of `ZipExtFile.read` for a
non-negative byte count (lines 1428-1437), including the stash of excess
data into the read buffer. -/
def readLoop (cdc : Codec) : Nat → ExtState → Int → List Nat →
    Except PyError (List Nat × ExtState)
  | 0, _, _, _ => .error .fuelExhausted
  | fuel + 1, st, n, buf =>
    if 0 < n ∧ st.eof = false then do
      let (data, st) ← read1 cdc st n
      if n < (data.length : Int) then
        .ok (buf ++ pySliceTo data n, { st with readbuffer := data, offset := n.toNat })
      else
        readLoop cdc fuel st (n - data.length) (buf ++ data)
    else .ok (buf, st)

/-- `ZipExtFile.read(n)` (lines 1388-1439): `n` absent/None or negative
reads to EOF; otherwise the buffered fast path or the accumulation
loop. -/
def readM (cdc : Codec) (fuel : Nat) (st : ExtState) (n : Option Int) :
    Except PyError (List Nat × ExtState) :=
  if st.closed then .error (.valueError "Read from closed file.")
  else
    match n with
    | none =>
        readAllLoop cdc fuel { st with readbuffer := [], offset := 0 }
          (st.readbuffer.drop st.offset)
    | some n =>
      if n < 0 then
        readAllLoop cdc fuel { st with readbuffer := [], offset := 0 }
          (st.readbuffer.drop st.offset)
      else
        let endI : Int := n + st.offset
        if endI < (st.readbuffer.length : Int) then
          .ok ((st.readbuffer.take endI.toNat).drop st.offset,
               { st with offset := endI.toNat })
        else
          let n2 := endI - st.readbuffer.length
          readLoop cdc fuel { st with readbuffer := [], offset := 0 } n2
            (st.readbuffer.drop st.offset)

/-- The position formula of `ZipExtFile.tell` (line 1638). -/
def tellVal (st : ExtState) : Int :=
  (st.origFileSize : Int) - st.left - st.readbuffer.length + st.offset

/-- `ZipExtFile.tell` (lines 1633-1639). -/
def tellM (st : ExtState) : Except PyError Int :=
  if st.closed then .error (.valueError "tell on closed file.")
  else if st.seekable = false then
    .error (.unsupportedOperation "underlying stream is not seekable")
  else .ok (tellVal st)

/-- `ZipExtFile._init_decrypter` (lines 1260-1295): build the key state
from the password, read the 12-byte encryption header, account for it
against the compressed budget, decrypt it, and return its 12th decrypted
byte (IndexError if fewer than 12 bytes could be read). -/
def initDecrypter (st : ExtState) : Except PyError (Nat × ExtState) :=
  match st.pwd with
  | none => .error (.runtimeError "Password is required for decryption.")
  | some p =>
    if p.isEmpty then .error (.runtimeError "Password is required for decryption.")
    else
      let k := ZipDecrypter.initKeys p
      let (header, f) := st.fileobj.read 12
      let st := { st with fileobj := f, compressLeft := st.compressLeft - 12 }
      let (k2, dec) := ZipDecrypter.decrypt k header
      let st := { st with decrypter := some k2 }
      match dec.get? 11 with
      | none => .error .indexError
      | some h => .ok (h, st)

/-- `ZipExtFile.__init__` (lines 1177-1258): set up counters, codec state,
CRC expectations and the seekability snapshot; then, when a truthy password
was supplied, compute the check byte (high byte of the raw DOS time when
the use-data-descriptor flag is set, else the top byte of the stored
CRC-32), run `_init_decrypter`, and reject the password if the 12th
decrypted header byte differs. -/
def zipExtFileInit (cdc : Codec) (fileobj : FileObj) (zinfo : ZipInfoM)
    (pwd : Option (List Nat)) : Except PyError ExtState := do
  let ds ← getDecompressorInit cdc zinfo.compressType
  let st : ExtState :=
    { fileobj := fileobj
      name := zinfo.name
      compressType := zinfo.compressType
      compressLeft := (zinfo.compressSize : Int)
      left := (zinfo.fileSize : Int)
      dstate := ds
      eof := false
      closed := false
      readbuffer := []
      offset := 0
      runningCrc := crc32 [] 0
      expectedCrc := some zinfo.crcValue
      pwd := pwd
      decrypter := none
      seekable := fileobj.seekableFlag
      origCompressStart := fileobj.pos
      origCompressSize := zinfo.compressSize
      origFileSize := zinfo.fileSize
      origStartCrc := crc32 [] 0
      origCrc := some zinfo.crcValue }
  if pwdTruthy pwd then
    let checkByte ←
      if zinfo.flagBits &&& MASK_USE_DATA_DESCRIPTOR ≠ 0 then
        match zinfo.rawTime with
        | some t => pure ((t >>> 8) &&& 0xFF)
        | none => throw (PyError.valueError
            "Missing _raw_time value in ZipInfo; cannot perform decryption check.")
      else pure ((zinfo.crcValue >>> 24) &&& 0xFF)
    let (h, st) ← initDecrypter st
    if h ≠ checkByte then
      throw (PyError.runtimeError ("Bad password for file " ++ zinfo.name))
    else pure st
  else pure st

/-- The replay loop at the end of `ZipExtFile.seek` (lines 1626-1629). -/
def seekReadLoop (cdc : Codec) : Nat → ExtState → Int → Except PyError ExtState
  | 0, _, _ => .error .fuelExhausted
  | fuel + 1, st, readOffset =>
    if 0 < readOffset then do
      let readLen := min (MAX_SEEK_READ : Int) readOffset
      let (_, st) ← readM cdc fuel st (some readLen)
      seekReadLoop cdc fuel st (readOffset - readLen)
    else .ok st

/-- `ZipExtFile.seek(offset, whence)` (lines 1569-1631): clamp the target,
then either move inside the read buffer, fast-skip on a stored unencrypted
entry (disabling CRC verification), or reset to the entry start and replay;
finally drain forward in `MAX_SEEK_READ` chunks. -/
def seekM (cdc : Codec) (fuel : Nat) (st : ExtState) (offset : Int)
    (whence : Nat) : Except PyError (Int × ExtState) := do
  if st.closed then throw (PyError.valueError "seek on closed file.")
  if st.seekable = false then
    throw (PyError.unsupportedOperation "underlying stream is not seekable")
  let currPos ← tellM st
  let newPos ←
    if whence = 0 then pure offset
    else if whence = 1 then pure (currPos + offset)
    else if whence = 2 then pure ((st.origFileSize : Int) + offset)
    else throw (PyError.valueError
      "whence must be os.SEEK_SET (0), os.SEEK_CUR (1), or os.SEEK_END (2)")
  let newPos := if (st.origFileSize : Int) < newPos then (st.origFileSize : Int) else newPos
  let newPos := if newPos < 0 then 0 else newPos
  let readOffset := newPos - currPos
  let buffOffset := readOffset + st.offset
  let (st, readOffset) ←
    if 0 ≤ buffOffset ∧ buffOffset < (st.readbuffer.length : Int) then
      pure ({ st with offset := buffOffset.toNat }, (0 : Int))
    else if st.compressType = ZIP_STORED ∧ st.decrypter = none ∧ 0 < readOffset then do
      let st := { st with expectedCrc := none }
      let readOffset := readOffset - ((st.readbuffer.length : Int) - st.offset)
      let f ← st.fileobj.seekCur readOffset
      let st := { st with fileobj := f, left := st.left - readOffset,
                          readbuffer := [], offset := 0 }
      pure (st, (0 : Int))
    else if readOffset < 0 then do
      let ds ← getDecompressorInit cdc st.compressType
      let st := { st with
        fileobj := { st.fileobj with pos := st.origCompressStart }
        runningCrc := st.origStartCrc
        expectedCrc := st.origCrc
        compressLeft := (st.origCompressSize : Int)
        left := (st.origFileSize : Int)
        readbuffer := []
        offset := 0
        dstate := ds
        eof := false }
      if st.decrypter ≠ none then
        let (_, st) ← initDecrypter st
        pure (st, newPos)
      else pure (st, newPos)
    else pure (st, readOffset)
  let st ← seekReadLoop cdc fuel st readOffset
  pure (tellVal st, st)

/-! ## `ZipFile.open` (lines 1940-2023) -/

/-- The read path of `ZipFile.open` on a resolved descriptor: skip and
validate the local header, reject unsupported flag combinations, verify
the stored filename, apply the overlap (zip-bomb) guard, resolve the
password for encrypted entries, and construct the entry reader.

The source decodes the local-header filename (UTF-8 when the header's
UTF-8 flag bit is set, else cp437) and compares the decoded string with
`zinfo.orig_filename`, which `_RealGetContents` decoded the same way from
the central directory; both decodings are injective on byte strings, so
the comparison is modelled at the byte level. -/
def zipOpen (cdc : Codec) (fpData : List Nat) (seekableFlag : Bool)
    (zinfo : ZipInfoM) (pwd : Option (List Nat)) (defaultPwd : Option (List Nat)) :
    Except PyError ExtState := do
  let f : FileObj := ⟨fpData, zinfo.headerOffset, seekableFlag⟩
  let (fheader, f) := f.read sizeFileHeader
  if fheader.length ≠ sizeFileHeader then
    throw (PyError.badZipFile "Truncated file header")
  if fheader.take 4 ≠ stringFileHeader then
    throw (PyError.badZipFile "Bad magic number for file header")
  let fnameLen := leAt 2 fheader 26
  let extraLen := leAt 2 fheader 28
  let (fname, f) := f.read fnameLen
  let f ← if extraLen ≠ 0 then f.seekCur (extraLen : Int) else pure f
  if zinfo.flagBits &&& MASK_COMPRESSED_PATCH ≠ 0 then
    throw (PyError.notImplemented "compressed patched data (flag bit 5)")
  if zinfo.flagBits &&& MASK_STRONG_ENCRYPTION ≠ 0 then
    throw (PyError.notImplemented "strong encryption (flag bit 6)")
  if fname ≠ zinfo.origFilename then
    throw (PyError.badZipFile "File name in directory and header differ.")
  match zinfo.endOffset with
  | some e =>
      if (e : Int) < (f.pos : Int) + zinfo.compressSize then
        throw (PyError.badZipFile
          ("Overlapped entries: " ++ zinfo.name ++ " (possible zip bomb)"))
      else pure ()
  | none => pure ()
  let isEncrypted := zinfo.flagBits &&& MASK_ENCRYPTED ≠ 0
  let pwd2 ←
    if isEncrypted then
      let p := if pwdTruthy pwd then pwd else defaultPwd
      if pwdTruthy p then pure p
      else throw (PyError.runtimeError
        ("File " ++ zinfo.name ++ " is encrypted, password required for extraction"))
    else pure none
  zipExtFileInit cdc f zinfo pwd2

/-! ## Reference counting of the shared byte source (`ZipFile` lines
1963-1967, 2125-2138)

A small transition system over the observable resource state: `ZipFile`
starts with `_fileRefCnt = 1`; `open` increments it and hands a
`_SharedFile` whose close routine is `_fpclose`; `ZipFile.close` drops
`self.fp` and calls `_fpclose`; `_fpclose` decrements and physically
closes the source only at zero and only when the source was opened from a
path (`not self._filePassed`).  Operations that raise in the source do so
before mutating, so they are modelled as identities. -/

inductive ZfAction where
  | openEntry
  | closeReader
  | closeZip
deriving Repr, DecidableEq

structure ZfState where
  fpOpen : Bool
  filePassed : Bool
  fileRefCnt : Int
  openReaders : Nat
  physClosed : Bool
deriving Repr, DecidableEq

/-- `ZipFile._fpclose` (lines 2134-2138).  The `assert self._fileRefCnt > 0`
raises before any mutation when it fails, leaving the state unchanged. -/
def fpclose (st : ZfState) : ZfState :=
  if st.fileRefCnt ≤ 0 then st
  else if st.fileRefCnt - 1 = 0 ∧ st.filePassed = false then
    { st with fileRefCnt := st.fileRefCnt - 1, physClosed := true }
  else { st with fileRefCnt := st.fileRefCnt - 1 }

/-- One observable operation.  `openEntry` is `ZipFile.open` (which raises
on a closed archive before mutating); `closeReader` closes one open entry
reader (`_SharedFile.close` is idempotent, so only currently-open readers
have an effect); `closeZip` is `ZipFile.close` (a no-op once `fp` is
`None`). -/
def zfStep (st : ZfState) : ZfAction → ZfState
  | .openEntry =>
      if st.fpOpen = false then st
      else { st with fileRefCnt := st.fileRefCnt + 1, openReaders := st.openReaders + 1 }
  | .closeReader =>
      if st.openReaders = 0 then st
      else fpclose { st with openReaders := st.openReaders - 1 }
  | .closeZip =>
      if st.fpOpen = false then st
      else fpclose { st with fpOpen := false }

/-- The state right after `ZipFile.__init__`: reference count 1, no entry
readers, source open. -/
def zfInit (filePassed : Bool) : ZfState :=
  { fpOpen := true, filePassed := filePassed, fileRefCnt := 1,
    openReaders := 0, physClosed := false }

/-- Run a sequence of operations from the freshly-constructed state. -/
def zfRun (filePassed : Bool) (acts : List ZfAction) : ZfState :=
  acts.foldl zfStep (zfInit filePassed)

/-! ## Theorem-side apparatus -/

instance {ε α : Type} [DecidableEq ε] [DecidableEq α] : DecidableEq (Except ε α) :=
  fun a b =>
    match a, b with
    | .error e1, .error e2 =>
        decidable_of_iff (e1 = e2) ⟨fun h => by rw [h], fun h => by injection h⟩
    | .ok v1, .ok v2 =>
        decidable_of_iff (v1 = v2) ⟨fun h => by rw [h], fun h => by injection h⟩
    | .error _, .ok _ => isFalse (fun h => by injection h)
    | .ok _, .error _ => isFalse (fun h => by injection h)

/-- The password check byte `ZipExtFile.__init__` compares against (lines
1244-1255): the high byte of the raw DOS time when the use-data-descriptor
flag bit is set (`none` when `_raw_time` is missing, in which case the
constructor raises `ValueError`), else the top byte of the stored
CRC-32. -/
def checkByteM (zinfo : ZipInfoM) : Option Nat :=
  if zinfo.flagBits &&& MASK_USE_DATA_DESCRIPTOR ≠ 0 then
    zinfo.rawTime.map (fun t => (t >>> 8) &&& 0xFF)
  else some ((zinfo.crcValue >>> 24) &&& 0xFF)

/-- A descriptor with its derived end offset erased, for comparing the
working copy of the entry table with the original. -/
def stripEnd (z : ZipInfoM) : ZipInfoM :=
  { z with endOffset := none }

/-- Concatenated output of a sequence of `read` calls on one entry reader
(a call that raises contributes no bytes and ends the sequence). -/
def runReads (cdc : Codec) (fuel : Nat) : ExtState → List (Option Int) → List Nat
  | _, [] => []
  | st, n :: ns =>
    match readM cdc fuel st n with
    | .ok (out, st') => out ++ runReads cdc fuel st' ns
    | .error _ => []

/-! ## Concrete fixtures (witness inputs) -/

/-- A degenerate codec instance (never emits output); the stored path never
consults it. -/
def fixtureCodec : Codec :=
  ⟨0, fun s _ _ => (s, []), fun _ => [], fun _ => false, fun _ => [],
   0, fun s _ => (s, []), fun _ => false⟩

/-- A 31-byte buffer holding one well-formed local file header (signature,
filename length 1, extra length 0) followed by the 1-byte filename "a". -/
def overlapHeader : List Nat :=
  [0x50, 0x4B, 3, 4, 20, 0, 0, 0, 0, 0, 0, 0, 0, 33] ++
    [0, 0, 0, 0] ++ [100, 0, 0, 0] ++ [100, 0, 0, 0] ++ [1, 0] ++ [0, 0] ++ [97]

/-- A descriptor whose declared 100-byte data span overruns its assigned
end offset 40. -/
def overlapInfo : ZipInfoM :=
  { origFilename := [97], name := "a", headerOffset := 0, flagBits := 0,
    compressType := 0, compressSize := 100, fileSize := 100, crcValue := 0,
    rawTime := none, endOffset := some 40 }

/-- Twelve `0x07` bytes standing for an encryption header, followed by
three payload bytes. -/
def encHeaderData : List Nat := List.replicate 12 7 ++ [1, 2, 3]

/-- An encrypted-entry descriptor (flag bit 0 set, no data descriptor), so
the password check byte is the top byte `0xAA` of the stored CRC. -/
def encInfo : ZipInfoM :=
  { origFilename := [97], name := "a", headerOffset := 0, flagBits := 1,
    compressType := 0, compressSize := 15, fileSize := 3, crcValue := 0xAABBCCDD,
    rawTime := some 0x1234, endOffset := none }

/-- The bytes "hello". -/
def helloBytes : List Nat := [104, 101, 108, 108, 111]

/-- A freshly opened stored-entry reader over `data`, positioned at `pos`,
with declared sizes `sz` and expected CRC `crcv` (the state
`ZipExtFile.__init__` produces for an unencrypted stored entry whose data
starts at `pos`). -/
def freshStored (data : List Nat) (pos sz crcv : Nat) : ExtState :=
  { fileobj := ⟨data, pos, true⟩, name := "t", compressType := ZIP_STORED,
    compressLeft := (sz : Int), left := (sz : Int), dstate := 0, eof := false,
    closed := false, readbuffer := [], offset := 0, runningCrc := 0,
    expectedCrc := some crcv, pwd := none, decrypter := none, seekable := true,
    origCompressStart := pos, origCompressSize := sz, origFileSize := sz,
    origStartCrc := 0, origCrc := some crcv }

/-- A minimal valid archive: the 22-byte empty end-of-central-directory
record. -/
def emptyEocd : List Nat :=
  [0x50, 0x4B, 5, 6] ++ List.replicate 16 0 ++ [0, 0]

/-- Stored "hello" entry followed by two trailer bytes. -/
def helloEntryData : List Nat := helloBytes ++ [0x50, 0x4B]

/-- A stored 5-byte entry descriptor used as witness input. -/
def c6Info : ZipInfoM :=
  { origFilename := [116], name := "t", headerOffset := 0, flagBits := 0,
    compressType := 0, compressSize := 5, fileSize := 5, crcValue := 0,
    rawTime := none, endOffset := none }

/-! # Theorems -/

/-! ## Generic helper lemmas -/

theorem xor_xor_self (x m : Nat) : (x ^^^ m) ^^^ m = x := by
  rw [Nat.xor_assoc, Nat.xor_self, Nat.xor_zero]

theorem crc32_nil (v : Nat) : crc32 [] v = v := by
  simp [crc32, xor_xor_self]

theorem crc32_append (a b : List Nat) (v : Nat) :
    crc32 (a ++ b) v = crc32 b (crc32 a v) := by
  simp [crc32, List.foldl_append, xor_xor_self]

theorem and_mask32 (x : Nat) : x &&& 0xFFFFFFFF = x % (2 ^ 32) := by
  have h := Nat.and_pow_two_sub_one_eq_mod x 32
  norm_num at h ⊢
  exact h

/-! ## Decrypter lemmas -/

theorem updateKeys_eq_spec (b : Nat) (k : Keys) :
    ZipDecrypter.updateKeys b k = SpecCipher.updateKeys b k := by
  have hstep : ZipDecrypter.computeCrc32Byte = SpecCipher.crc32StepPoly := by
    funext ch crc; rfl
  unfold ZipDecrypter.updateKeys SpecCipher.updateKeys
  simp only [hstep]
  have hkey1 :
      ((k.key1 + (SpecCipher.crc32StepPoly b k.key0 &&& 0xFF)) &&& 0xFFFFFFFF) *
          134775813 + 1 &&& 0xFFFFFFFF =
      ((k.key1 + (SpecCipher.crc32StepPoly b k.key0 &&& 0xFF)) * 134775813 + 1) % 2 ^ 32 := by
    rw [and_mask32, and_mask32]
    exact ((Nat.mod_modEq (k.key1 + (SpecCipher.crc32StepPoly b k.key0 &&& 0xFF))
      (2 ^ 32)).mul_right 134775813).add_right 1
  rw [hkey1]

theorem decrypt_eq_spec (data : List Nat) : ∀ k : Keys,
    ZipDecrypter.decrypt k data = SpecCipher.decrypt k data := by
  induction data with
  | nil => intro k; rfl
  | cons c rest ih =>
      intro k
      have hb : ZipDecrypter.decryptByte k c = SpecCipher.decryptByte k c := rfl
      simp [ZipDecrypter.decrypt, SpecCipher.decrypt, hb, updateKeys_eq_spec, ih]

theorem initKeys_eq_spec (pwd : List Nat) :
    ZipDecrypter.initKeys pwd = SpecCipher.initKeys pwd := by
  unfold ZipDecrypter.initKeys SpecCipher.initKeys
  have : (fun (k : Keys) (c : Nat) => ZipDecrypter.updateKeys c k) =
      fun (k : Keys) (c : Nat) => SpecCipher.updateKeys c k := by
    funext k c; exact updateKeys_eq_spec c k
  rw [this]; rfl

theorem decrypt_append (a : List Nat) : ∀ (k : Keys) (b : List Nat),
    ZipDecrypter.decrypt k (a ++ b) =
      ((ZipDecrypter.decrypt (ZipDecrypter.decrypt k a).1 b).1,
       (ZipDecrypter.decrypt k a).2 ++ (ZipDecrypter.decrypt (ZipDecrypter.decrypt k a).1 b).2) := by
  induction a with
  | nil => intro k b; simp [ZipDecrypter.decrypt]
  | cons c rest ih =>
      intro k b
      simp [ZipDecrypter.decrypt, ih]

theorem decrypt_length (d : List Nat) : ∀ k : Keys,
    (ZipDecrypter.decrypt k d).2.length = d.length := by
  induction d with
  | nil => intro k; rfl
  | cons c rest ih => intro k; simp [ZipDecrypter.decrypt, ih]

/-- **C4.** The legacy decrypter's state transition and output match the
specification's equations exactly, in 32-bit modular arithmetic: the fixed
initial constants, the password feed, the per-byte key updates
`key0 = crc32_step(b, key0)`,
`key1 = ((key1 + (key0 & 0xFF)) * 134775813 + 1) mod 2^32`,
`key2 = crc32_step((key1 >> 24) & 0xFF, key2)` over the `0xEDB88320` CRC
table, and the byte transform `c XOR (((t*(t XOR 1)) >> 8) & 0xFF)` with
`t = key2 | 2`, feeding the plaintext byte back into the keys. -/
theorem c4_decrypter_matches_spec_equations :
    (∀ (b : Nat) (k : Keys), ZipDecrypter.updateKeys b k = SpecCipher.updateKeys b k) ∧
    (∀ (k : Keys) (c : Nat), ZipDecrypter.decryptByte k c = SpecCipher.decryptByte k c) ∧
    ZipDecrypter.initialKeys = SpecCipher.initialKeys ∧
    (∀ pwd : List Nat, ZipDecrypter.initKeys pwd = SpecCipher.initKeys pwd) ∧
    (∀ (pwd data : List Nat),
      ZipDecrypter.decrypt (ZipDecrypter.initKeys pwd) data =
        SpecCipher.decrypt (SpecCipher.initKeys pwd) data) :=
  ⟨updateKeys_eq_spec, fun _ _ => rfl, rfl, initKeys_eq_spec,
   fun pwd data => by rw [decrypt_eq_spec, initKeys_eq_spec]⟩

/-- **C10.** `ZipDecrypter.decrypt` is a length-preserving stream
homomorphism: decrypting `a` then `b` on the same instance equals
decrypting `a ++ b` in one call, and every call's output has exactly the
length of its input — so the chunk boundaries chosen by the buffered
reader never change the plaintext. -/
theorem c10_decrypt_stream_homomorphism :
    (∀ pwd a b : List Nat,
      ZipDecrypter.decrypt (ZipDecrypter.initKeys pwd) (a ++ b) =
        ((ZipDecrypter.decrypt (ZipDecrypter.decrypt (ZipDecrypter.initKeys pwd) a).1 b).1,
         (ZipDecrypter.decrypt (ZipDecrypter.initKeys pwd) a).2 ++
           (ZipDecrypter.decrypt (ZipDecrypter.decrypt (ZipDecrypter.initKeys pwd) a).1 b).2)) ∧
    (∀ (k : Keys) (d : List Nat), (ZipDecrypter.decrypt k d).2.length = d.length) :=
  ⟨fun pwd a b => decrypt_append a (ZipDecrypter.initKeys pwd) b,
   fun k d => decrypt_length d k⟩

/-! ## End-offset assignment and the overlap guard (C1) -/

theorem assignEnds_length (e : Nat) (l : List ZipInfoM) :
    (assignEnds e l).length = l.length := by
  induction l generalizing e with
  | nil => rfl
  | cons z rest ih => simp [assignEnds, ih]

theorem assignEnds_get_zero (e : Nat) (l : List ZipInfoM)
    (h : 0 < (assignEnds e l).length) :
    ((assignEnds e l).get ⟨0, h⟩).endOffset = some e := by
  cases l with
  | nil => simp [assignEnds] at h
  | cons z rest => rfl

theorem assignEnds_get_succ (e : Nat) (l : List ZipInfoM) (i : Nat)
    (h : i + 1 < (assignEnds e l).length) :
    ((assignEnds e l).get ⟨i + 1, h⟩).endOffset =
      some (((assignEnds e l).get ⟨i, by omega⟩).headerOffset) := by
  induction l generalizing e i with
  | nil => simp [assignEnds] at h
  | cons z rest ih =>
      cases i with
      | zero =>
          have h0 : 0 < (assignEnds z.headerOffset rest).length := by
            simp only [assignEnds, List.length_cons] at h
            omega
          exact assignEnds_get_zero z.headerOffset rest h0
      | succ j =>
          have hj : j + 1 < (assignEnds z.headerOffset rest).length := by
            simp only [assignEnds, List.length_cons] at h
            omega
          exact ih z.headerOffset j hj

theorem assignEnds_map_headerOffset (e : Nat) (l : List ZipInfoM) :
    (assignEnds e l).map (fun z => z.headerOffset) =
      l.map (fun z => z.headerOffset) := by
  induction l generalizing e with
  | nil => rfl
  | cons z rest ih => simp [assignEnds, ih]

theorem assignEnds_map_stripEnd (e : Nat) (l : List ZipInfoM) :
    (assignEnds e l).map stripEnd = l.map stripEnd := by
  induction l generalizing e with
  | nil => rfl
  | cons z rest ih => simp [assignEnds, stripEnd, ih]

theorem sortByHeaderDesc_pairwise (infos : List ZipInfoM) :
    List.Pairwise (fun a b => b.headerOffset ≤ a.headerOffset)
      (sortByHeaderDesc infos) := by
  have h := @List.sorted_mergeSort ZipInfoM
    (fun a b : ZipInfoM => decide (b.headerOffset ≤ a.headerOffset))
    (fun a b c hab hbc => by
      simp only [decide_eq_true_eq] at *
      omega)
    (fun a b => by
      simp only [Bool.or_eq_true, decide_eq_true_eq]
      omega)
    infos
  exact h.imp (fun hab => by simpa using hab)

theorem assignEnds_pairwise (e : Nat) (l : List ZipInfoM)
    (h : List.Pairwise (fun a b => b.headerOffset ≤ a.headerOffset) l) :
    List.Pairwise (fun a b => b.headerOffset ≤ a.headerOffset) (assignEnds e l) := by
  have h1 : List.Pairwise (fun x y : Nat => y ≤ x)
      (l.map (fun z => z.headerOffset)) := List.pairwise_map.mpr h
  rw [← assignEnds_map_headerOffset e l] at h1
  exact List.pairwise_map.mp h1

theorem seekCur_nat (f : FileObj) (k : Nat) :
    f.seekCur (k : Int) = .ok { f with pos := f.pos + k } := by
  unfold FileObj.seekCur
  rw [if_neg (by omega)]
  have : ((f.pos : Int) + (k : Int)).toNat = f.pos + k := by omega
  rw [this]

/-- **C1.** `ZipFile.open` on an entry whose computed data end (the shared
file position after the local header, filename and extra field have been
skipped, plus the entry's `compress_size`) exceeds its `_end_offset` fails
with the zip-bomb/overlap `BadZipFile("Overlapped entries: ...")` instead
of returning a reader; and `_end_offset` is assigned during parsing over a
working copy sorted by header offset descending: the highest-offset entry
gets the central directory's start offset, and every other entry gets the
previous (next-higher-offset) entry's header offset. -/
theorem c1_overlap_guard_and_end_offsets :
    (∀ (cdc : Codec) (fpData : List Nat) (sk : Bool) (zinfo : ZipInfoM)
       (pwd dpwd : Option (List Nat)) (e : Nat),
       zinfo.endOffset = some e →
       ((fpData.drop zinfo.headerOffset).take sizeFileHeader).length = sizeFileHeader →
       ((fpData.drop zinfo.headerOffset).take sizeFileHeader).take 4 = stringFileHeader →
       zinfo.flagBits &&& MASK_COMPRESSED_PATCH = 0 →
       zinfo.flagBits &&& MASK_STRONG_ENCRYPTION = 0 →
       (fpData.drop (zinfo.headerOffset + sizeFileHeader)).take
           (leAt 2 ((fpData.drop zinfo.headerOffset).take sizeFileHeader) 26) =
         zinfo.origFilename →
       (e : Int) < ((zinfo.headerOffset + sizeFileHeader + zinfo.origFilename.length +
           leAt 2 ((fpData.drop zinfo.headerOffset).take sizeFileHeader) 28 +
           zinfo.compressSize : Nat) : Int) →
       zipOpen cdc fpData sk zinfo pwd dpwd =
         .error (.badZipFile
           ("Overlapped entries: " ++ zinfo.name ++ " (possible zip bomb)"))) ∧
    (∀ (startDir : Nat) (infos : List ZipInfoM),
       ((assignEndOffsets startDir infos).map stripEnd).Perm (infos.map stripEnd) ∧
       List.Pairwise (fun a b => b.headerOffset ≤ a.headerOffset)
         (assignEndOffsets startDir infos) ∧
       (∀ h0 : 0 < (assignEndOffsets startDir infos).length,
         ((assignEndOffsets startDir infos).get ⟨0, h0⟩).endOffset = some startDir) ∧
       (∀ (i : Nat) (h : i + 1 < (assignEndOffsets startDir infos).length),
         ((assignEndOffsets startDir infos).get ⟨i + 1, h⟩).endOffset =
           some (((assignEndOffsets startDir infos).get ⟨i, by omega⟩).headerOffset))) := by
  constructor
  · intro cdc fpData sk zinfo pwd dpwd e hend hh30 hsig hpatch hstrong hfname hovl
    unfold zipOpen
    by_cases hx : leAt 2 ((fpData.drop zinfo.headerOffset).take sizeFileHeader) 28 = 0
    · rw [hx] at hovl
      simp only [FileObj.read, hh30, hsig, hfname, hpatch, hstrong, hend, hx, ne_eq,
        not_true_eq_false, if_false, bind, Except.bind, pure, not_false_eq_true,
        Except.pure]
      rw [if_pos (by push_cast at hovl ⊢; omega)]
    · simp only [FileObj.read, hh30, hsig, hfname, hpatch, hstrong, hend, hx, ne_eq,
        not_true_eq_false, if_false, bind, Except.bind, pure, not_false_eq_true,
        Except.pure, seekCur_nat, if_true]
      rw [if_pos (by push_cast at hovl ⊢; omega)]
  · intro startDir infos
    refine ⟨?_, ?_, ?_, ?_⟩
    · rw [assignEndOffsets, assignEnds_map_stripEnd]
      exact (List.mergeSort_perm infos _).map stripEnd
    · exact assignEnds_pairwise _ _ (sortByHeaderDesc_pairwise infos)
    · intro h0
      exact assignEnds_get_zero _ _ h0
    · intro i h
      exact assignEnds_get_succ _ _ i h

theorem c1_witness :
    zipOpen fixtureCodec overlapHeader true overlapInfo none none =
      .error (.badZipFile "Overlapped entries: a (possible zip bomb)") :=
  c1_overlap_guard_and_end_offsets.1 fixtureCodec overlapHeader true overlapInfo
    none none 40 rfl (by decide) (by decide) (by decide) (by decide) (by decide)
    (by decide)

/-! ## Password check (C3) -/

/-- **C3.** For an encrypted entry opened with a (truthy) password, the
12-byte encryption header is decrypted first and its last (12th) decrypted
byte is compared against the check byte — the high byte of the raw DOS
time when the use-data-descriptor flag bit is set, else the top byte of
the stored CRC-32.  On mismatch the reader's construction fails
immediately with the wrong-password error; on match the constructed reader
has consumed exactly the 12 header bytes, so no entry plaintext byte was
returned either way. -/
theorem c3_wrong_password_rejected (cdc : Codec) (fileobj : FileObj)
    (zinfo : ZipInfoM) (p : List Nat) (ds cb : Nat)
    (hds : getDecompressorInit cdc zinfo.compressType = .ok ds)
    (hp : p ≠ [])
    (hav : fileobj.pos + 12 ≤ fileobj.data.length)
    (hcb : checkByteM zinfo = some cb) :
    ((ZipDecrypter.decrypt (ZipDecrypter.initKeys p)
        ((fileobj.data.drop fileobj.pos).take 12)).2.getD 11 0 ≠ cb →
      zipExtFileInit cdc fileobj zinfo (some p) =
        .error (.runtimeError ("Bad password for file " ++ zinfo.name))) ∧
    ((ZipDecrypter.decrypt (ZipDecrypter.initKeys p)
        ((fileobj.data.drop fileobj.pos).take 12)).2.getD 11 0 = cb →
      ∃ st, zipExtFileInit cdc fileobj zinfo (some p) = .ok st ∧
        st.fileobj.pos = fileobj.pos + 12 ∧
        st.decrypter = some (ZipDecrypter.decrypt (ZipDecrypter.initKeys p)
          ((fileobj.data.drop fileobj.pos).take 12)).1) := by
  have hp' : p.isEmpty = false := by
    cases p with
    | nil => exact absurd rfl hp
    | cons a l => rfl
  have hlen12 : ((fileobj.data.drop fileobj.pos).take 12).length = 12 := by
    rw [List.length_take, List.length_drop]
    omega
  have hdlen : (ZipDecrypter.decrypt (ZipDecrypter.initKeys p)
      ((fileobj.data.drop fileobj.pos).take 12)).2.length = 12 := by
    rw [decrypt_length, hlen12]
  have h11 : 11 < (ZipDecrypter.decrypt (ZipDecrypter.initKeys p)
      ((fileobj.data.drop fileobj.pos).take 12)).2.length := by omega
  have hget : (ZipDecrypter.decrypt (ZipDecrypter.initKeys p)
      ((fileobj.data.drop fileobj.pos).take 12)).2.get? 11 =
      some ((ZipDecrypter.decrypt (ZipDecrypter.initKeys p)
        ((fileobj.data.drop fileobj.pos).take 12)).2.getD 11 0) := by
    rw [List.getD_eq_get?]
    rcases hq : (ZipDecrypter.decrypt (ZipDecrypter.initKeys p)
        ((fileobj.data.drop fileobj.pos).take 12)).2.get? 11 with _ | v
    · rw [List.get?_eq_none] at hq
      omega
    · rfl
  rcases hkd : ZipDecrypter.decrypt (ZipDecrypter.initKeys p)
      ((fileobj.data.drop fileobj.pos).take 12) with ⟨k2, dec⟩
  simp only [hkd] at hget ⊢
  constructor
  · intro hne
    unfold zipExtFileInit
    simp only [hds, bind, Except.bind, pure, Except.pure, pwdTruthy, hp',
      Bool.not_false, if_true]
    unfold initDecrypter
    simp only [hp', Bool.false_eq_true, if_false, FileObj.read, hlen12, hkd, hget]
    unfold checkByteM at hcb
    by_cases hflag : zinfo.flagBits &&& MASK_USE_DATA_DESCRIPTOR ≠ 0
    · rw [if_pos hflag] at hcb ⊢
      rcases hrt : zinfo.rawTime with _ | t
      · rw [hrt] at hcb
        simp at hcb
      · rw [hrt] at hcb
        dsimp only
        simp at hcb
        rw [hcb]
        rw [if_pos hne]
        (try rfl)
    · rw [if_neg hflag] at hcb ⊢
      simp only [Option.some_inj] at hcb
      rw [hcb]
      rw [if_pos hne]
      (try rfl)
  · intro heq
    unfold zipExtFileInit
    simp only [hds, bind, Except.bind, pure, Except.pure, pwdTruthy, hp',
      Bool.not_false, if_true]
    unfold initDecrypter
    simp only [hp', Bool.false_eq_true, if_false, FileObj.read, hlen12, hkd, hget]
    unfold checkByteM at hcb
    by_cases hflag : zinfo.flagBits &&& MASK_USE_DATA_DESCRIPTOR ≠ 0
    · rw [if_pos hflag] at hcb ⊢
      rcases hrt : zinfo.rawTime with _ | t
      · rw [hrt] at hcb
        simp at hcb
      · rw [hrt] at hcb
        dsimp only
        simp at hcb
        rw [hcb]
        rw [if_neg (fun hx => hx heq)]
        exact ⟨_, rfl, rfl, rfl⟩
    · rw [if_neg hflag] at hcb ⊢
      simp only [Option.some_inj] at hcb
      rw [hcb]
      rw [if_neg (fun hx => hx heq)]
      exact ⟨_, rfl, rfl, rfl⟩


theorem c3_witness :
    zipExtFileInit fixtureCodec ⟨encHeaderData, 0, true⟩ encInfo (some [97]) =
      .error (.runtimeError "Bad password for file a") :=
  (c3_wrong_password_rejected fixtureCodec ⟨encHeaderData, 0, true⟩ encInfo [97] 0 170
    (by decide) (by decide) (by decide) (by decide)).1 (by decide)

/-! ## Reference counting (C8) -/

/-- The reachable-state invariant of the refcount system. -/
def zfInv (st : ZfState) : Prop :=
  st.fileRefCnt = (if st.fpOpen then 1 else 0) + st.openReaders ∧
  (st.physClosed = true ↔ (st.filePassed = false ∧ st.fileRefCnt = 0))

theorem zfInv_init (fp : Bool) : zfInv (zfInit fp) := by
  constructor <;> simp [zfInit]

theorem fpclose_filePassed (s : ZfState) : (fpclose s).filePassed = s.filePassed := by
  unfold fpclose
  split
  · rfl
  · split <;> rfl

theorem zfStep_filePassed (st : ZfState) (a : ZfAction) :
    (zfStep st a).filePassed = st.filePassed := by
  cases a with
  | openEntry =>
      simp only [zfStep]; split
      · rfl
      · rfl
  | closeReader =>
      simp only [zfStep]; split
      · rfl
      · rw [fpclose_filePassed]
  | closeZip =>
      simp only [zfStep]; split
      · rfl
      · rw [fpclose_filePassed]

theorem zfInv_step (st : ZfState) (a : ZfAction) (h : zfInv st) : zfInv (zfStep st a) := by
  obtain ⟨fpOpen, filePassed, cnt, readers, pc⟩ := st
  obtain ⟨h1, h2⟩ := h
  simp only [zfInv] at h1 h2 ⊢
  cases a <;> cases fpOpen <;> cases filePassed <;> cases pc <;>
      simp only [zfStep, fpclose, if_true, if_false] <;>
      norm_num at h1 h2 ⊢ <;>
      (try split_ifs) <;>
      (try norm_num) <;>
      first
      | omega
      | simp_all

theorem zfInv_run (fp : Bool) (acts : List ZfAction) : zfInv (zfRun fp acts) := by
  suffices h : ∀ (st : ZfState), zfInv st → zfInv (acts.foldl zfStep st) by
    exact h _ (zfInv_init fp)
  induction acts with
  | nil => intro st h; exact h
  | cons a rest ih => intro st h; exact ih _ (zfInv_step st a h)

theorem zfRun_filePassed (fp : Bool) (acts : List ZfAction) :
    (zfRun fp acts).filePassed = fp := by
  suffices h : ∀ (st : ZfState), (acts.foldl zfStep st).filePassed = st.filePassed by
    exact h (zfInit fp)
  induction acts with
  | nil => intro st; rfl
  | cons a rest ih => intro st; rw [List.foldl_cons, ih, zfStep_filePassed]

/-- **C8.** An externally supplied byte source is never physically closed
by any sequence of `open` / reader-close / `ZipFile.close` operations; for
a path-opened source, the physical close happens exactly when the
reference count (the handle itself plus all open entry readers) reaches
zero. -/
theorem c8_source_close_discipline (fp : Bool) (acts : List ZfAction) :
    (fp = true → (zfRun fp acts).physClosed = false) ∧
    (fp = false →
      ((zfRun fp acts).physClosed = true ↔ (zfRun fp acts).fileRefCnt = 0)) := by
  have hinv := zfInv_run fp acts
  have hfp := zfRun_filePassed fp acts
  constructor
  · intro h
    by_contra hc
    have : (zfRun fp acts).physClosed = true := by
      cases hx : (zfRun fp acts).physClosed
      · exact absurd hx hc
      · rfl
    have := hinv.2.1 this
    rw [hfp, h] at this
    exact absurd this.1 (by simp)
  · intro h
    constructor
    · intro hpc; exact (hinv.2.1 hpc).2
    · intro hc; exact hinv.2.2 ⟨by rw [hfp, h], hc⟩

/-! ## EOCD discovery (C7, C9) -/

theorem seekEnd_neg_osFile (src : Source) (off : Int)
    (h : (src.data.length : Int) + off < 0) (hk : src.kind = .osFile) :
    src.seekEnd off = .error .osError := by
  unfold Source.seekEnd
  rw [if_pos h, hk]

theorem seekEnd_neg_memBuf (src : Source) (off : Int)
    (h : (src.data.length : Int) + off < 0) (hk : src.kind = .memBuf) :
    src.seekEnd off = .ok 0 := by
  unfold Source.seekEnd
  rw [if_pos h, hk]

theorem seekEnd_ok (src : Source) (off : Int)
    (h : 0 ≤ (src.data.length : Int) + off) :
    src.seekEnd off = .ok ((src.data.length : Int) + off).toNat := by
  unfold Source.seekEnd
  rw [if_neg (by omega)]

/-- **C9.** A byte source smaller than the 22-byte EOCD record always fails
cleanly with the structured `BadZipFile("File is not a zip file")` — for
path-opened files (whose negative end-relative seek raises the caught
`OSError`) and for externally supplied in-memory streams (whose seek clamps
to 0, after which neither the fast path nor the backward scan can accept a
sub-22-byte buffer). -/
theorem endRecDataScan_short (src : Source) (filesize m : Nat)
    (h : src.data.length < sizeEndCentDir) :
    endRecDataScan src filesize m = .ok none := by
  rcases hfind : rfindSig stringEndArchive (src.data.drop m) with _ | start
  · simp only [endRecDataScan, hfind]
  · have hlt : (((src.data.drop m).drop start).take sizeEndCentDir).length
        ≠ sizeEndCentDir := by
      rw [List.length_take, List.length_drop, List.length_drop]
      simp only [sizeEndCentDir] at *
      omega
    simp only [endRecDataScan, hfind, if_pos hlt]

theorem c9_small_source_fails_cleanly (src : Source)
    (h : src.data.length < sizeEndCentDir) :
    realGetContentsEndrec src = .error (.badZipFile "File is not a zip file") := by
  have h22 : src.data.length < 22 := h
  have hneg : (src.data.length : Int) + (-(22 : Int)) < 0 := by omega
  unfold realGetContentsEndrec endRecData
  cases hk : src.kind with
  | osFile =>
      rw [seekEnd_neg_osFile src _ hneg hk]
  | memBuf =>
      rw [seekEnd_neg_memBuf src _ hneg hk]
      have hfast : ¬((src.data.drop 0).length = sizeEndCentDir ∧
          (src.data.drop 0).take 4 = stringEndArchive ∧
          (src.data.drop 0).drop 20 = [0, 0]) := by
        intro hc
        have h1 := hc.1
        rw [List.drop_zero] at h1
        simp only [sizeEndCentDir] at h1
        omega
      simp only [if_neg hfast, endRecDataScan_short src _ _ h]

theorem c9_witness :
    realGetContentsEndrec ⟨[0x50, 0x4B], .osFile⟩ =
        .error (.badZipFile "File is not a zip file") ∧
    realGetContentsEndrec ⟨[0x50, 0x4B], .memBuf⟩ =
        .error (.badZipFile "File is not a zip file") :=
  ⟨c9_small_source_fails_cleanly _ (by decide),
   c9_small_source_fails_cleanly _ (by decide)⟩

/-- **C7.** For a source whose trailing 22 bytes form an EOCD record with
the `PK\x05\x06` signature and a zero comment-length field, and on which
the ZIP64 probe leaves the record unchanged (no ZIP64 extension),
discovery accepts via the fixed-offset fast path: the result is exactly
the unpacked trailing record, with an empty comment and the correct record
offset `size - 22`, and no backward scan is consulted. -/
theorem c7_eocd_fast_path (src : Source)
    (hlen : sizeEndCentDir ≤ src.data.length)
    (hsig : (src.data.drop (src.data.length - sizeEndCentDir)).take 4 = stringEndArchive)
    (hzero : (src.data.drop (src.data.length - sizeEndCentDir)).drop 20 = [0, 0])
    (hz64 : endRecData64 src (-(22 : Int))
        (unpackEndRec (src.data.drop (src.data.length - sizeEndCentDir)) []
          (src.data.length - sizeEndCentDir)) =
      .ok (unpackEndRec (src.data.drop (src.data.length - sizeEndCentDir)) []
          (src.data.length - sizeEndCentDir))) :
    endRecData src =
      .ok (some (unpackEndRec (src.data.drop (src.data.length - sizeEndCentDir)) []
        (src.data.length - sizeEndCentDir))) ∧
    (unpackEndRec (src.data.drop (src.data.length - sizeEndCentDir)) []
        (src.data.length - sizeEndCentDir)).comment = [] ∧
    (unpackEndRec (src.data.drop (src.data.length - sizeEndCentDir)) []
        (src.data.length - sizeEndCentDir)).location =
      src.data.length - sizeEndCentDir ∧
    (unpackEndRec (src.data.drop (src.data.length - sizeEndCentDir)) []
        (src.data.length - sizeEndCentDir)).zip64 = none := by
  refine ⟨?_, rfl, rfl, rfl⟩
  have hlen' : (22 : Nat) ≤ src.data.length := hlen
  have hnneg : (0 : Int) ≤ (src.data.length : Int) + (-(22 : Int)) := by omega
  have htonat : ((src.data.length : Int) + (-(22 : Int))).toNat =
      src.data.length - sizeEndCentDir := by
    simp only [sizeEndCentDir]; omega
  have hseek := seekEnd_ok src (-(22 : Int)) hnneg
  rw [htonat] at hseek
  have hdl : (src.data.drop (src.data.length - sizeEndCentDir)).length = sizeEndCentDir := by
    rw [List.length_drop]
    simp only [sizeEndCentDir] at *
    omega
  simp only [endRecData, hseek, hz64, Except.map]
  rw [if_pos ⟨hdl, hsig, hzero⟩]

theorem c7_witness :
    endRecData ⟨emptyEocd, .osFile⟩ =
      .ok (some (unpackEndRec emptyEocd [] 0)) :=
  (c7_eocd_fast_path ⟨emptyEocd, .osFile⟩ (by decide) (by decide) (by decide)
    (by decide)).1

theorem c8_witness :
    (zfRun true [ZfAction.openEntry, ZfAction.closeReader, ZfAction.closeZip]).physClosed
        = false ∧
    ((zfRun false [ZfAction.openEntry, ZfAction.closeReader, ZfAction.closeZip]).physClosed
          = true ↔
      (zfRun false [ZfAction.openEntry, ZfAction.closeReader, ZfAction.closeZip]).fileRefCnt
          = 0) :=
  ⟨(c8_source_close_discipline true _).1 rfl,
   (c8_source_close_discipline false _).2 rfl⟩

theorem read2_stored_pos (st : ExtState) (n : Int) (C pos : Nat)
    (hdec : st.decrypter = none)
    (hC : st.compressLeft = (C : Int))
    (hCpos : 0 < C)
    (hpos : st.fileobj.pos = pos)
    (havail : pos < st.fileobj.data.length) :
    read2 st n =
      .ok ((st.fileobj.data.drop pos).take ((min (max n (MIN_READ_SIZE : Int)) (C : Int)).toNat),
        { st with
            fileobj := { st.fileobj with pos := pos +
              ((st.fileobj.data.drop pos).take
                ((min (max n (MIN_READ_SIZE : Int)) (C : Int)).toNat)).length }
            compressLeft := (C : Int) -
              ((st.fileobj.data.drop pos).take
                ((min (max n (MIN_READ_SIZE : Int)) (C : Int)).toNat)).length }) ∧
    ((st.fileobj.data.drop pos).take
        ((min (max n (MIN_READ_SIZE : Int)) (C : Int)).toNat)).length =
      min ((min (max n (MIN_READ_SIZE : Int)) (C : Int)).toNat)
        (st.fileobj.data.length - pos) := by
  have hm : (MIN_READ_SIZE : Nat) = 4096 := rfl
  have hnotle : ¬ (C : Int) ≤ 0 := by omega
  have hlen : ((st.fileobj.data.drop pos).take
      ((min (max n (MIN_READ_SIZE : Int)) (C : Int)).toNat)).length =
      min ((min (max n (MIN_READ_SIZE : Int)) (C : Int)).toNat)
        (st.fileobj.data.length - pos) := by
    rw [List.length_take, List.length_drop]
  have hne : ((st.fileobj.data.drop pos).take
      ((min (max n (MIN_READ_SIZE : Int)) (C : Int)).toNat)).length ≠ 0 := by
    rw [hlen]; omega
  refine ⟨?_, hlen⟩
  simp only [read2, FileObj.read, hC, hpos, hdec]
  rw [if_neg hnotle, if_neg hne]


theorem crc_chunk_split (D : List Nat) (pos r L v : Nat) :
    crc32 ((D.drop (pos + r)).take (L - min r L))
      (crc32 ((D.drop pos).take (min r L)) v) =
    crc32 ((D.drop pos).take L) v := by
  rw [← crc32_append]
  congr 1
  rcases le_or_lt L r with hLr | hrL
  · rw [min_eq_right hLr, Nat.sub_self, List.take_zero, List.append_nil]
  · rw [min_eq_left hrL.le]
    have h1 : (D.drop pos).drop r = D.drop (pos + r) := by
      rw [List.drop_drop, Nat.add_comm]
    rw [← h1, ← List.take_add ((D.drop pos)) r (L - r)]
    congr 1
    omega

theorem read1_stored_step (cdc : Codec) (st : ExtState) (n : Int) (L C pos r : Nat)
    (hct : st.compressType = ZIP_STORED)
    (hdec : st.decrypter = none)
    (heof : st.eof = false)
    (hL : st.left = (L : Int))
    (hC : st.compressLeft = (C : Int))
    (hLC : L ≤ C)
    (hpos : st.fileobj.pos = pos)
    (havail : pos + L < st.fileobj.data.length)
    (hn : 0 < n)
    (hr : r = min ((min (max n (MIN_READ_SIZE : Int)) (C : Int)).toNat)
      (st.fileobj.data.length - pos)) :
    ((C = 0 → r = 0) ∧ (0 < C → 1 ≤ r ∧ r ≤ C)) ∧
    ((∀ e, st.expectedCrc = some e → (C - r = 0 ∨ L - min r L = 0) →
        crc32 ((st.fileobj.data.drop pos).take (min r L)) st.runningCrc ≠ e →
        read1 cdc st n = .error (.badZipFile ("Bad CRC-32 for file " ++ st.name))) ∧
     ((∀ e, st.expectedCrc = some e → (C - r = 0 ∨ L - min r L = 0) →
        crc32 ((st.fileobj.data.drop pos).take (min r L)) st.runningCrc = e) →
      ∃ st', read1 cdc st n = .ok ((st.fileobj.data.drop pos).take (min r L), st') ∧
        st'.compressType = ZIP_STORED ∧ st'.decrypter = none ∧
        st'.closed = st.closed ∧ st'.name = st.name ∧
        st'.readbuffer = st.readbuffer ∧ st'.offset = st.offset ∧
        st'.left = ((L - min r L : Nat) : Int) ∧
        st'.compressLeft = ((C - r : Nat) : Int) ∧
        st'.fileobj.data = st.fileobj.data ∧
        st'.fileobj.pos = pos + r ∧
        st'.fileobj.seekableFlag = st.fileobj.seekableFlag ∧
        st'.expectedCrc = st.expectedCrc ∧
        st'.seekable = st.seekable ∧
        (st'.eof = true ↔ (C - r = 0 ∨ L - min r L = 0)) ∧
        (∀ e, st.expectedCrc = some e →
          crc32 ((st.fileobj.data.drop (pos + r)).take (L - min r L)) st'.runningCrc =
          crc32 ((st.fileobj.data.drop pos).take L) st.runningCrc))) := by
  have hm : (MIN_READ_SIZE : Int) = 4096 := by norm_num [MIN_READ_SIZE]
  have hctD : ¬ st.compressType = ZIP_DEFLATED := by rw [hct]; decide
  have hnotguard : ¬ (st.eof = true ∨ n ≤ 0) := by
    rw [heof]; push_neg; exact ⟨Bool.false_ne_true, by omega⟩
  rcases Nat.eq_zero_or_pos C with hC0 | hCpos
  · -- exhausted compressed budget: r = 0, nothing read
    have hr0 : r = 0 := by subst hr; omega
    have hL0 : L = 0 := by omega
    have hmin0 : min r L = 0 := by omega
    have h2 : read2 st n = .ok ([], st) := by
      simp [read2, hC, hC0]
    have hdec0 : decide (st.compressLeft ≤ (0 : Int)) = true := by
      rw [hC, hC0]; decide
    have hred : read1 cdc st n = read1Finish { st with eof := true } [] := by
      simp only [read1, if_neg hnotguard, if_neg hctD, h2, bind, Except.bind]
      rw [hct, if_pos rfl, hdec0]
    have hle : st.left ≤ (0 : Int) := by rw [hL, hL0]; norm_num
    refine ⟨⟨fun _ => hr0, fun h => absurd h (by omega)⟩, ?_, ?_⟩
    · intro e hexp _ hmis
      rw [hmin0, List.take_zero, crc32_nil] at hmis
      have hmis' : crc32 [] st.runningCrc ≠ e := by rwa [crc32_nil]
      rw [hred]
      simp only [read1Finish, pySliceTo, List.take_nil, ite_self, List.length_nil,
        Nat.cast_zero, sub_zero, if_pos hle, updateCrc, hexp, true_and]
      rw [if_pos hmis']
    · intro hcond
      rw [hmin0, List.take_zero]
      cases hexp : st.expectedCrc with
      | none =>
        refine ⟨{ st with eof := true }, ?_, ?_⟩
        · rw [hred]
          simp only [read1Finish, pySliceTo, List.take_nil, ite_self, List.length_nil,
            Nat.cast_zero, sub_zero, if_pos hle, updateCrc, hexp]
        · refine ⟨hct, hdec, rfl, rfl, rfl, rfl, ?_, ?_, rfl, ?_, rfl, hexp, rfl, ?_, ?_⟩
          · simp [hL, hL0, hmin0]
          · simp [hC, hC0, hr0]
          · simp [hpos, hr0]
          · simp [hC0, hr0]
          · intro e2 he2; simp at he2
      | some e =>
        have hcrc : st.runningCrc = e := by
          have := hcond e hexp (Or.inl (by omega))
          rwa [hmin0, List.take_zero, crc32_nil] at this
        refine ⟨{ st with
            eof := true
            runningCrc := crc32 [] st.runningCrc }, ?_, ?_⟩
        · rw [hred]
          simp only [read1Finish, pySliceTo, List.take_nil, ite_self, List.length_nil,
            Nat.cast_zero, sub_zero, if_pos hle, updateCrc, hexp, true_and]
          rw [if_neg (show ¬ crc32 [] st.runningCrc ≠ e by simp [crc32_nil, hcrc])]
        · refine ⟨hct, hdec, rfl, rfl, rfl, rfl, ?_, ?_, rfl, ?_, rfl, hexp, rfl, ?_, ?_⟩
          · simp [hL, hL0, hmin0]
          · simp [hC, hC0, hr0]
          · simp [hpos, hr0]
          · simp [hC0, hr0]
          · intro e2 he2
            simp [hL0, crc32_nil]
  · -- data still pending: one raw read of r bytes
    obtain ⟨h2, hlen2⟩ := read2_stored_pos st n C pos hdec hC hCpos hpos (by omega)
    have hrC : 1 ≤ r ∧ r ≤ C := by subst hr; omega
    have hlenr : ((st.fileobj.data.drop pos).take
        ((min (max n (MIN_READ_SIZE : Int)) (C : Int)).toNat)).length = r := by
      rw [hlen2, ← hr]
    have hminLM : min L ((min (max n (MIN_READ_SIZE : Int)) (C : Int)).toNat)
        = min r L := by subst hr; omega
    have hcast : (C : Int) - ((r : Nat) : Int) = ((C - r : Nat) : Int) := by omega
    have hchunk : pySliceTo ((st.fileobj.data.drop pos).take
          ((min (max n (MIN_READ_SIZE : Int)) (C : Int)).toNat)) ((L : Nat) : Int)
        = (st.fileobj.data.drop pos).take (min r L) := by
      rw [pySliceTo, if_pos (Int.natCast_nonneg L),
        Int.toNat_natCast, List.take_take, hminLM]
    have hdlen : ((st.fileobj.data.drop pos).take (min r L)).length = min r L := by
      rw [List.length_take, List.length_drop]; omega
    have hlcast : (L : Int) - ((min r L : Nat) : Int) = ((L - min r L : Nat) : Int) := by
      omega
    have hred : read1 cdc st n = read1Finish
        ({ st with
            fileobj := { st.fileobj with pos := pos + r }
            compressLeft := ((C - r : Nat) : Int)
            eof := decide (((C - r : Nat) : Int) ≤ 0) })
        ((st.fileobj.data.drop pos).take
          ((min (max n (MIN_READ_SIZE : Int)) (C : Int)).toNat)) := by
      simp only [read1, if_neg hnotguard, if_neg hctD, h2, bind, Except.bind]
      dsimp only
      rw [hct, if_pos rfl, hlenr, hcast]
    by_cases hLe : L - min r L = 0
    · have hposle : ((L - min r L : Nat) : Int) ≤ 0 := by rw [hLe]; norm_num
      refine ⟨⟨fun h => absurd h (by omega), fun _ => hrC⟩, ?_, ?_⟩
      · intro e hexp _ hmis
        rw [hred]
        simp only [read1Finish, hchunk, hdlen, hL, hlcast, if_pos hposle,
          updateCrc, hexp, true_and]
        rw [if_pos hmis]
      · intro hcond
        cases hexp : st.expectedCrc with
        | none =>
          refine ⟨{ st with
              fileobj := { st.fileobj with pos := pos + r }
              compressLeft := ((C - r : Nat) : Int)
              left := ((L - min r L : Nat) : Int)
              eof := true }, ?_, ?_⟩
          · rw [hred]
            simp only [read1Finish, hchunk, hdlen, hL, hlcast, if_pos hposle,
              updateCrc, hexp]
          · refine ⟨hct, hdec, rfl, rfl, rfl, rfl, rfl, rfl, rfl, rfl, rfl, hexp, rfl,
              ?_, ?_⟩
            · simp [hLe]
            · intro e2 he2; simp at he2
        | some e =>
          have hcrc := hcond e hexp (Or.inr hLe)
          refine ⟨{ st with
              fileobj := { st.fileobj with pos := pos + r }
              compressLeft := ((C - r : Nat) : Int)
              left := ((L - min r L : Nat) : Int)
              eof := true
              runningCrc := crc32 ((st.fileobj.data.drop pos).take (min r L))
                st.runningCrc }, ?_, ?_⟩
          · rw [hred]
            simp only [read1Finish, hchunk, hdlen, hL, hlcast, if_pos hposle,
              updateCrc, hexp, true_and]
            rw [if_neg (show ¬ crc32 ((st.fileobj.data.drop pos).take (min r L))
              st.runningCrc ≠ e by simp [hcrc])]
          · refine ⟨hct, hdec, rfl, rfl, rfl, rfl, rfl, rfl, rfl, rfl, rfl, hexp, rfl,
              ?_, ?_⟩
            · simp [hLe]
            · intro e2 he2
              exact crc_chunk_split st.fileobj.data pos r L st.runningCrc
    · have hCr : C - r ≠ 0 := by omega
      have hposgt : ¬ ((L - min r L : Nat) : Int) ≤ 0 := by omega
      have hdecF : decide (((C - r : Nat) : Int) ≤ 0) = false := by
        rw [decide_eq_false_iff_not]; omega
      refine ⟨⟨fun h => absurd h (by omega), fun _ => hrC⟩, ?_, ?_⟩
      · intro e hexp heofa hmis
        exact absurd heofa (by omega)
      · intro hcond
        cases hexp : st.expectedCrc with
        | none =>
          refine ⟨{ st with
              fileobj := { st.fileobj with pos := pos + r }
              compressLeft := ((C - r : Nat) : Int)
              left := ((L - min r L : Nat) : Int)
              eof := decide (((C - r : Nat) : Int) ≤ 0) }, ?_, ?_⟩
          · rw [hred]
            simp only [read1Finish, hchunk, hdlen, hL, hlcast, if_neg hposgt,
              updateCrc, hexp]
          · refine ⟨hct, hdec, rfl, rfl, rfl, rfl, rfl, rfl, rfl, rfl, rfl, hexp, rfl,
              ?_, ?_⟩
            · rw [hdecF]; simp [hCr, hLe]
            · intro e2 he2; simp at he2
        | some e =>
          refine ⟨{ st with
              fileobj := { st.fileobj with pos := pos + r }
              compressLeft := ((C - r : Nat) : Int)
              left := ((L - min r L : Nat) : Int)
              eof := decide (((C - r : Nat) : Int) ≤ 0)
              runningCrc := crc32 ((st.fileobj.data.drop pos).take (min r L))
                st.runningCrc }, ?_, ?_⟩
          · rw [hred]
            simp only [read1Finish, hchunk, hdlen, hL, hlcast, if_neg hposgt,
              updateCrc, hexp, hdecF, Bool.false_eq_true, false_and, if_false]
          · refine ⟨hct, hdec, rfl, rfl, rfl, rfl, rfl, rfl, rfl, rfl, rfl, hexp, rfl,
              ?_, ?_⟩
            · rw [hdecF]; simp [hCr, hLe]
            · intro e2 he2
              exact crc_chunk_split st.fileobj.data pos r L st.runningCrc

theorem take_chunk_split (D : List Nat) (pos r L : Nat) :
    (D.drop pos).take (min r L) ++ (D.drop (pos + r)).take (L - min r L) =
    (D.drop pos).take L := by
  rcases le_or_lt L r with hLr | hrL
  · rw [min_eq_right hLr, Nat.sub_self, List.take_zero, List.append_nil]
  · rw [min_eq_left hrL.le]
    have h1 : (D.drop pos).drop r = D.drop (pos + r) := by
      rw [List.drop_drop, Nat.add_comm]
    rw [← h1, ← List.take_add ((D.drop pos)) r (L - r)]
    congr 1
    omega

theorem take_chunk_split2 (D : List Nat) (pos r L k : Nat)
    (hLav : pos + L ≤ D.length) (hrk : min r L ≤ k) :
    ((D.drop pos).take L).take k =
    (D.drop pos).take (min r L) ++
      ((D.drop (pos + r)).take (L - min r L)).take (k - min r L) := by
  rcases le_or_lt L r with hLr | hrL
  · rw [min_eq_right hLr, Nat.sub_self, List.take_zero, List.take_nil, List.append_nil]
    apply List.take_of_length_le
    rw [List.length_take, List.length_drop]
    omega
  · rw [min_eq_left hrL.le] at hrk ⊢
    have h1 : (D.drop pos).drop r = D.drop (pos + r) := by
      rw [List.drop_drop, Nat.add_comm]
    have h2 : (D.drop (pos + r)).take (L - r) = ((D.drop pos).take L).drop r := by
      rw [List.drop_take, h1]
    have h3 : (D.drop pos).take r = ((D.drop pos).take L).take r := by
      rw [List.take_take, min_eq_left hrL.le]
    rw [h3, h2, ← List.take_add (((D.drop pos).take L)) r (k - r)]
    congr 1
    omega

theorem readAllLoop_stored_ok (cdc : Codec) (fuel : Nat) :
    ∀ (st : ExtState) (buf : List Nat) (L C pos : Nat),
    st.compressType = ZIP_STORED → st.decrypter = none → st.eof = false →
    st.left = (L : Int) → st.compressLeft = (C : Int) → L ≤ C →
    st.fileobj.pos = pos → pos + L < st.fileobj.data.length →
    (∀ e, st.expectedCrc = some e →
      crc32 ((st.fileobj.data.drop pos).take L) st.runningCrc = e) →
    C + 2 ≤ fuel →
    ∃ st', readAllLoop cdc fuel st buf =
      .ok (buf ++ (st.fileobj.data.drop pos).take L, st') ∧ st'.eof = true := by
  induction fuel using Nat.strong_induction_on with
  | _ fuel IH =>
  intro st buf L C pos hct hdec heof hL hC hLC hpos havail hcrc hfuel
  obtain ⟨f2, rfl⟩ : ∃ f2, fuel = f2 + 1 := ⟨fuel - 1, by omega⟩
  rw [readAllLoop]
  rw [if_neg (by rw [heof]; exact Bool.false_ne_true)]
  have hn : (0 : Int) < ((MAX_N : Nat) : Int) := by
    have h0 : (0 : Nat) < MAX_N := by decide
    exact_mod_cast h0
  obtain ⟨⟨hr0, hrpos⟩, herr, hok⟩ :=
    read1_stored_step cdc st ((MAX_N : Nat) : Int) L C pos
      (min ((min (max ((MAX_N : Nat) : Int) (MIN_READ_SIZE : Int)) (C : Int)).toNat)
        (st.fileobj.data.length - pos))
      hct hdec heof hL hC hLC hpos havail hn rfl
  set r := min ((min (max ((MAX_N : Nat) : Int) (MIN_READ_SIZE : Int)) (C : Int)).toNat)
    (st.fileobj.data.length - pos) with hrdef
  have hrC : r ≤ C := by
    rcases Nat.eq_zero_or_pos C with h | h
    · omega
    · exact (hrpos h).2
  have hcond : ∀ e, st.expectedCrc = some e → (C - r = 0 ∨ L - min r L = 0) →
      crc32 ((st.fileobj.data.drop pos).take (min r L)) st.runningCrc = e := by
    intro e he hd
    have hminL : min r L = L := by rcases hd with h | h <;> omega
    rw [hminL]; exact hcrc e he
  obtain ⟨st2, heq, hct2, hdec2, hcl2, hname2, hrb2, hoff2, hleft2, hcleft2,
    hdata2, hpos2, hsf2, hexp2, hseek2, heof2, hcrceq2⟩ := hok hcond
  simp only [heq, bind, Except.bind]
  by_cases hfin : C - r = 0 ∨ L - min r L = 0
  · have heofT : st2.eof = true := heof2.mpr hfin
    have hminL : min r L = L := by rcases hfin with h | h <;> omega
    obtain ⟨f3, rfl⟩ : ∃ f3, f2 = f3 + 1 := ⟨f2 - 1, by omega⟩
    rw [readAllLoop, if_pos heofT, hminL]
    exact ⟨st2, rfl, heofT⟩
  · push_neg at hfin
    have heofF : st2.eof = false := by
      cases h : st2.eof
      · rfl
      · exact absurd (heof2.mp h) (by omega)
    have hCpos : 0 < C := by omega
    have hr1 : 1 ≤ r := (hrpos hCpos).1
    have hminr : min r L = r := by omega
    obtain ⟨st', heq', heof'⟩ := IH f2 (by omega) st2 (buf ++
        (st.fileobj.data.drop pos).take (min r L)) (L - min r L) (C - r) (pos + r)
      hct2 hdec2 heofF hleft2 hcleft2 (by omega) hpos2
      (by rw [hdata2]; omega)
      (by
        intro e he
        rw [hexp2] at he
        rw [hdata2]
        rw [hcrceq2 e he]
        exact hcrc e he)
      (by omega)
    rw [heq', hdata2, List.append_assoc, take_chunk_split]
    exact ⟨st', rfl, heof'⟩

theorem readAllLoop_stored_err (cdc : Codec) (fuel : Nat) :
    ∀ (st : ExtState) (buf : List Nat) (L C pos : Nat) (e : Nat),
    st.compressType = ZIP_STORED → st.decrypter = none → st.eof = false →
    st.left = (L : Int) → st.compressLeft = (C : Int) → L ≤ C →
    st.fileobj.pos = pos → pos + L < st.fileobj.data.length →
    st.expectedCrc = some e →
    crc32 ((st.fileobj.data.drop pos).take L) st.runningCrc ≠ e →
    C + 2 ≤ fuel →
    readAllLoop cdc fuel st buf =
      .error (.badZipFile ("Bad CRC-32 for file " ++ st.name)) := by
  induction fuel using Nat.strong_induction_on with
  | _ fuel IH =>
  intro st buf L C pos e hct hdec heof hL hC hLC hpos havail hexpe hmis hfuel
  obtain ⟨f2, rfl⟩ : ∃ f2, fuel = f2 + 1 := ⟨fuel - 1, by omega⟩
  rw [readAllLoop]
  rw [if_neg (by rw [heof]; exact Bool.false_ne_true)]
  have hn : (0 : Int) < ((MAX_N : Nat) : Int) := by
    have h0 : (0 : Nat) < MAX_N := by decide
    exact_mod_cast h0
  obtain ⟨⟨hr0, hrpos⟩, herr, hok⟩ :=
    read1_stored_step cdc st ((MAX_N : Nat) : Int) L C pos
      (min ((min (max ((MAX_N : Nat) : Int) (MIN_READ_SIZE : Int)) (C : Int)).toNat)
        (st.fileobj.data.length - pos))
      hct hdec heof hL hC hLC hpos havail hn rfl
  set r := min ((min (max ((MAX_N : Nat) : Int) (MIN_READ_SIZE : Int)) (C : Int)).toNat)
    (st.fileobj.data.length - pos) with hrdef
  have hrC : r ≤ C := by
    rcases Nat.eq_zero_or_pos C with h | h
    · omega
    · exact (hrpos h).2
  by_cases hfin : C - r = 0 ∨ L - min r L = 0
  · have hminL : min r L = L := by rcases hfin with h | h <;> omega
    have herr2 := herr e hexpe hfin (by rw [hminL]; exact hmis)
    simp only [herr2, bind, Except.bind]
  · push_neg at hfin
    have hcond : ∀ e2, st.expectedCrc = some e2 → (C - r = 0 ∨ L - min r L = 0) →
        crc32 ((st.fileobj.data.drop pos).take (min r L)) st.runningCrc = e2 := by
      intro e2 _ hd
      exact absurd hd (by omega)
    obtain ⟨st2, heq, hct2, hdec2, hcl2, hname2, hrb2, hoff2, hleft2, hcleft2,
      hdata2, hpos2, hsf2, hexp2, hseek2, heof2, hcrceq2⟩ := hok hcond
    simp only [heq, bind, Except.bind]
    have heofF : st2.eof = false := by
      cases h : st2.eof
      · rfl
      · exact absurd (heof2.mp h) (by omega)
    have hCpos : 0 < C := by omega
    have hr1 : 1 ≤ r := (hrpos hCpos).1
    have hres := IH f2 (by omega) st2 (buf ++
        (st.fileobj.data.drop pos).take (min r L)) (L - min r L) (C - r) (pos + r) e
      hct2 hdec2 heofF hleft2 hcleft2 (by omega) hpos2
      (by rw [hdata2]; omega)
      (by rw [hexp2]; exact hexpe)
      (by
        rw [hdata2, hcrceq2 e hexpe]
        exact hmis)
      (by omega)
    rw [hres, hname2]

theorem readLoop_stored (cdc : Codec) (fuel : Nat) :
    ∀ (st : ExtState) (n : Int) (buf : List Nat) (L C pos : Nat),
    st.compressType = ZIP_STORED → st.decrypter = none → st.eof = false →
    st.left = (L : Int) → st.compressLeft = (C : Int) → L ≤ C →
    st.fileobj.pos = pos → pos + L < st.fileobj.data.length →
    (∀ e, st.expectedCrc = some e →
      crc32 ((st.fileobj.data.drop pos).take L) st.runningCrc = e) →
    0 ≤ n →
    C + 2 ≤ fuel →
    ∃ st', readLoop cdc fuel st n buf =
      .ok (buf ++ ((st.fileobj.data.drop pos).take L).take n.toNat, st') := by
  induction fuel using Nat.strong_induction_on with
  | _ fuel IH =>
  intro st n buf L C pos hct hdec heof hL hC hLC hpos havail hcrc hn0 hfuel
  obtain ⟨f2, rfl⟩ : ∃ f2, fuel = f2 + 1 := ⟨fuel - 1, by omega⟩
  rw [readLoop]
  by_cases hn : 0 < n
  · rw [if_pos ⟨hn, heof⟩]
    obtain ⟨⟨hr0, hrpos⟩, herr, hok⟩ :=
      read1_stored_step cdc st n L C pos
        (min ((min (max n (MIN_READ_SIZE : Int)) (C : Int)).toNat)
          (st.fileobj.data.length - pos))
        hct hdec heof hL hC hLC hpos havail hn rfl
    set r := min ((min (max n (MIN_READ_SIZE : Int)) (C : Int)).toNat)
      (st.fileobj.data.length - pos) with hrdef
    have hrC : r ≤ C := by
      rcases Nat.eq_zero_or_pos C with h | h
      · omega
      · exact (hrpos h).2
    have hcond : ∀ e, st.expectedCrc = some e → (C - r = 0 ∨ L - min r L = 0) →
        crc32 ((st.fileobj.data.drop pos).take (min r L)) st.runningCrc = e := by
      intro e he hd
      have hminL : min r L = L := by rcases hd with h | h <;> omega
      rw [hminL]; exact hcrc e he
    obtain ⟨st2, heq, hct2, hdec2, hcl2, hname2, hrb2, hoff2, hleft2, hcleft2,
      hdata2, hpos2, hsf2, hexp2, hseek2, heof2, hcrceq2⟩ := hok hcond
    simp only [heq, bind, Except.bind]
    have hdlen : ((st.fileobj.data.drop pos).take (min r L)).length = min r L := by
      rw [List.length_take, List.length_drop]; omega
    rw [hdlen]
    by_cases hstash : n < ((min r L : Nat) : Int)
    · rw [if_pos hstash]
      have hps : pySliceTo ((st.fileobj.data.drop pos).take (min r L)) n =
          ((st.fileobj.data.drop pos).take L).take n.toNat := by
        rw [pySliceTo, if_pos hn0, List.take_take, List.take_take]
        congr 1
        omega
      rw [hps]
      exact ⟨_, rfl⟩
    · rw [if_neg hstash]
      by_cases hfin : C - r = 0 ∨ L - min r L = 0
      · have heofT : st2.eof = true := heof2.mpr hfin
        have hminL : min r L = L := by rcases hfin with h | h <;> omega
        obtain ⟨f3, rfl⟩ : ∃ f3, f2 = f3 + 1 := ⟨f2 - 1, by omega⟩
        rw [readLoop]
        rw [if_neg (by
          rintro ⟨-, h⟩
          rw [heofT] at h
          cases h)]
        have htk : ((st.fileobj.data.drop pos).take L).take n.toNat =
            (st.fileobj.data.drop pos).take L := by
          apply List.take_of_length_le
          rw [List.length_take, List.length_drop]
          omega
        rw [htk, hminL]
        exact ⟨st2, rfl⟩
      · push_neg at hfin
        have heofF : st2.eof = false := by
          cases h : st2.eof
          · rfl
          · exact absurd (heof2.mp h) (by omega)
        have hCpos : 0 < C := by omega
        have hr1 : 1 ≤ r := (hrpos hCpos).1
        obtain ⟨st', heq'⟩ := IH f2 (by omega) st2 (n - ((min r L : Nat) : Int))
          (buf ++ (st.fileobj.data.drop pos).take (min r L))
          (L - min r L) (C - r) (pos + r)
          hct2 hdec2 heofF hleft2 hcleft2 (by omega) hpos2
          (by rw [hdata2]; omega)
          (by
            intro e he
            rw [hexp2] at he
            rw [hdata2]
            rw [hcrceq2 e he]
            exact hcrc e he)
          (by omega) (by omega)
        rw [heq', hdata2, List.append_assoc]
        have htn : (n - ((min r L : Nat) : Int)).toNat = n.toNat - min r L := by
          omega
        rw [htn, ← take_chunk_split2 st.fileobj.data pos r L n.toNat (by omega)
          (by omega)]
        exact ⟨st', rfl⟩
  · have hn0' : n = 0 := le_antisymm (not_lt.mp hn) hn0
    rw [if_neg (by rintro ⟨h, -⟩; omega)]
    subst hn0'
    rw [Int.toNat_zero, List.take_zero, List.append_nil]
    exact ⟨st, rfl⟩

/-- C2 (stored read to EOF with end-only CRC check): for a freshly opened
stored-entry reader, `read()` returns exactly the `file_size` declared
bytes when their CRC-32 matches the stored value, and fails with the
entry-naming `BadZipFile` error when it does not; moreover a `_read1` call
that leaves part of the entry unconsumed always succeeds without reaching
EOF, so the CRC error can only surface once the full entry has been
consumed. -/
theorem c2_stored_read_all_crc (cdc : Codec) (fuel : Nat) (st : ExtState)
    (sz pos cv : Nat)
    (hct : st.compressType = ZIP_STORED)
    (hdec : st.decrypter = none)
    (heof : st.eof = false)
    (hclosed : st.closed = false)
    (hbuf : st.readbuffer = [])
    (hoff : st.offset = 0)
    (hL : st.left = (sz : Int))
    (hC : st.compressLeft = (sz : Int))
    (hpos : st.fileobj.pos = pos)
    (havail : pos + sz < st.fileobj.data.length)
    (hexp : st.expectedCrc = some cv)
    (hfuel : sz + 2 ≤ fuel) :
    ((crc32 ((st.fileobj.data.drop pos).take sz) st.runningCrc = cv →
      ∃ st', readM cdc fuel st none =
        .ok ((st.fileobj.data.drop pos).take sz, st') ∧
        ((st.fileobj.data.drop pos).take sz).length = sz ∧ st'.eof = true) ∧
     (crc32 ((st.fileobj.data.drop pos).take sz) st.runningCrc ≠ cv →
      readM cdc fuel st none =
        .error (.badZipFile ("Bad CRC-32 for file " ++ st.name)))) ∧
    (∀ (st2 : ExtState) (n : Int) (L C p r : Nat),
      st2.compressType = ZIP_STORED → st2.decrypter = none → st2.eof = false →
      st2.left = (L : Int) → st2.compressLeft = (C : Int) → L ≤ C →
      st2.fileobj.pos = p → p + L < st2.fileobj.data.length → 0 < n →
      r = min ((min (max n (MIN_READ_SIZE : Int)) (C : Int)).toNat)
        (st2.fileobj.data.length - p) →
      C - r ≠ 0 → L - min r L ≠ 0 →
      ∃ out st3, read1 cdc st2 n = .ok (out, st3) ∧ st3.eof = false) := by
  have hlen : ((st.fileobj.data.drop pos).take sz).length = sz := by
    rw [List.length_take, List.length_drop]; omega
  have hnotcl : ¬ st.closed = true := by rw [hclosed]; exact Bool.false_ne_true
  have hmred : readM cdc fuel st none =
      readAllLoop cdc fuel { st with readbuffer := [], offset := 0 }
        (st.readbuffer.drop st.offset) := by
    simp only [readM, if_neg hnotcl]
  refine ⟨⟨?_, ?_⟩, ?_⟩
  · intro hcv
    obtain ⟨st', heq, heof'⟩ := readAllLoop_stored_ok cdc fuel
      { st with readbuffer := [], offset := 0 } (st.readbuffer.drop st.offset)
      sz sz pos hct hdec heof hL hC (le_refl sz) hpos havail
      (by intro e he; rw [hexp] at he; injection he with he; rw [← he]; exact hcv)
      hfuel
    rw [hmred, heq, hbuf, List.drop_nil, List.nil_append]
    exact ⟨st', rfl, hlen, heof'⟩
  · intro hcv
    have herr := readAllLoop_stored_err cdc fuel
      { st with readbuffer := [], offset := 0 } (st.readbuffer.drop st.offset)
      sz sz pos cv hct hdec heof hL hC (le_refl sz) hpos havail hexp hcv hfuel
    rw [hmred, herr]
  · intro st2 n L C p r hct2 hdec2 heof2 hL2 hC2 hLC2 hpos2 havail2 hn hr hCr hLr
    obtain ⟨-, -, hok⟩ :=
      read1_stored_step cdc st2 n L C p r hct2 hdec2 heof2 hL2 hC2 hLC2
        hpos2 havail2 hn hr
    obtain ⟨st3, heq, -, -, -, -, -, -, -, -, -, -, -, -, -, heof3, -⟩ :=
      hok (by intro e _ hd; exact absurd hd (by omega))
    refine ⟨_, st3, heq, ?_⟩
    cases h : st3.eof
    · rfl
    · exact absurd (heof3.mp h) (by omega)

theorem c2_witness :
    ∃ st', readM fixtureCodec 10
        (freshStored helloEntryData 0 5 (crc32 helloBytes 0)) none =
      .ok ((helloEntryData.drop 0).take 5, st') ∧
      ((helloEntryData.drop 0).take 5).length = 5 ∧ st'.eof = true :=
  (c2_stored_read_all_crc fixtureCodec 10
      (freshStored helloEntryData 0 5 (crc32 helloBytes 0)) 5 0 (crc32 helloBytes 0)
      rfl rfl rfl rfl rfl rfl rfl rfl rfl (by decide) rfl (by decide)).1.1 (by rfl)

theorem seekM_fresh_stored (cdc : Codec) (fuel : Nat) (st : ExtState)
    (sz pos k : Nat)
    (hct : st.compressType = ZIP_STORED)
    (hdec : st.decrypter = none)
    (heof : st.eof = false)
    (hclosed : st.closed = false)
    (hbuf : st.readbuffer = [])
    (hoff : st.offset = 0)
    (hL : st.left = (sz : Int))
    (hC : st.compressLeft = (sz : Int))
    (hpos : st.fileobj.pos = pos)
    (hseek : st.seekable = true)
    (horig : st.origFileSize = sz)
    (hk : k ≤ sz) (hfuel : 1 ≤ fuel) :
    ∃ stA, seekM cdc fuel st ((k : Nat) : Int) 0 = .ok (((k : Nat) : Int), stA) ∧
      stA.compressType = st.compressType ∧ stA.decrypter = none ∧
      stA.eof = false ∧ stA.closed = false ∧
      stA.readbuffer = [] ∧ stA.offset = 0 ∧
      stA.left = ((sz - k : Nat) : Int) ∧ stA.compressLeft = (sz : Int) ∧
      stA.fileobj.data = st.fileobj.data ∧ stA.fileobj.pos = pos + k ∧
      (k = 0 → stA = st) ∧ (0 < k → stA.expectedCrc = none) := by
  obtain ⟨f2, rfl⟩ : ∃ f2, fuel = f2 + 1 := ⟨fuel - 1, by omega⟩
  have hnotcl : ¬ st.closed = true := by rw [hclosed]; exact Bool.false_ne_true
  have hnotsk : ¬ st.seekable = false := by simp [hseek]
  have htell : tellM st = .ok (tellVal st) := by
    rw [tellM, if_neg hnotcl, if_neg hnotsk]
  have htv : tellVal st = 0 := by
    rw [tellVal, horig, hL, hbuf, hoff]
    simp
  have hclamp1 : ¬ ((st.origFileSize : Int) < ((k : Nat) : Int)) := by
    rw [horig]; omega
  have hclamp2 : ¬ (((k : Nat) : Int) < 0) := by omega
  rcases Nat.eq_zero_or_pos k with hk0 | hkpos
  · subst hk0
    refine ⟨st, ?_, rfl, hdec, heof, hclosed, hbuf, hoff, ?_, hC, rfl, ?_,
      fun _ => rfl, fun h => absurd h (by omega)⟩
    · have hcl1 : ¬ ((st.origFileSize : Int) < 0) := by omega
      simp only [seekM, if_neg hnotcl, if_neg hnotsk, htell, bind, Except.bind,
        pure, Except.pure, htv, if_true, if_neg hcl1, hoff, hbuf,
        List.length_nil, Nat.cast_zero, sub_zero, add_zero, zero_add,
        lt_self_iff_false, le_refl, true_and, and_false, false_and, if_false,
        ite_self, seekReadLoop, hct, hdec]
    · rw [hL]; omega
    · rw [hpos]; omega
  · have hkI : (0 : Int) < ((k : Nat) : Int) := by omega
    have hb1 : ¬ ((0 : Int) ≤ ((k : Nat) : Int) ∧ ((k : Nat) : Int) < 0) := by omega
    have htoNat : (((pos : Nat) : Int) + ((k : Nat) : Int)).toNat = pos + k := by
      omega
    have hseekCur : st.fileobj.seekCur ((k : Nat) : Int) =
        .ok { st.fileobj with pos := pos + k } := by
      rw [FileObj.seekCur, hpos, if_neg (by omega)]
      rw [htoNat]
    have hlk : st.left - ((k : Nat) : Int) = ((sz - k : Nat) : Int) := by
      rw [hL]; omega
    refine ⟨{ st with
        fileobj := { st.fileobj with pos := pos + k }
        left := ((sz - k : Nat) : Int)
        readbuffer := []
        offset := 0
        expectedCrc := none }, ?_, rfl, hdec, heof, hclosed, rfl, rfl, rfl, hC,
      rfl, rfl, fun h => absurd h (by omega), fun _ => rfl⟩
    simp only [seekM, if_neg hnotcl, if_neg hnotsk, htell, bind, Except.bind,
      pure, Except.pure, htv, if_true, if_neg hclamp1, if_neg hclamp2, hoff, hbuf,
      List.length_nil, Nat.cast_zero, sub_zero, add_zero, zero_add,
      lt_self_iff_false, le_refl, true_and, and_false, false_and, if_false,
      ite_self, if_neg hb1, hct, hdec, hkI, hseekCur, hlk, seekReadLoop]
    simp only [tellVal, horig, List.length_nil, Nat.cast_zero, sub_zero, add_zero]
    rw [show (sz : Int) - ((sz - k : Nat) : Int) = ((k : Nat) : Int) by omega]

/-- C5 (seek/read slicing): on a freshly opened seekable stored entry,
`seek(k)` reports position `k` and a following `read(n)` returns exactly
the `[k : k+n]` slice of what `read()` on another fresh reader of the same
entry returns, for all `0 ≤ k ≤ file_size` and `n ≥ 0`. -/
theorem c5_seek_read_slice (cdc : Codec) (fuel : Nat) (st : ExtState)
    (sz pos cv k : Nat) (n : Int)
    (hct : st.compressType = ZIP_STORED)
    (hdec : st.decrypter = none)
    (heof : st.eof = false)
    (hclosed : st.closed = false)
    (hbuf : st.readbuffer = [])
    (hoff : st.offset = 0)
    (hL : st.left = (sz : Int))
    (hC : st.compressLeft = (sz : Int))
    (hpos : st.fileobj.pos = pos)
    (hseek : st.seekable = true)
    (horig : st.origFileSize = sz)
    (havail : pos + sz < st.fileobj.data.length)
    (hexp : st.expectedCrc = some cv)
    (hcv : crc32 ((st.fileobj.data.drop pos).take sz) st.runningCrc = cv)
    (hk : k ≤ sz) (hn0 : 0 ≤ n) (hfuel : sz + 2 ≤ fuel) :
    ∃ stA stB stC,
      seekM cdc fuel st ((k : Nat) : Int) 0 = .ok (((k : Nat) : Int), stA) ∧
      readM cdc fuel stA (some n) =
        .ok ((((st.fileobj.data.drop pos).take sz).drop k).take n.toNat, stB) ∧
      readM cdc fuel st none = .ok ((st.fileobj.data.drop pos).take sz, stC) := by
  obtain ⟨stA, hseekEq, hctA, hdecA, heofA, hclA, hbufA, hoffA, hleftA, hcleftA,
    hdataA, hposA, hk0A, hkposA⟩ :=
    seekM_fresh_stored cdc fuel st sz pos k hct hdec heof hclosed hbuf hoff hL hC
      hpos hseek horig hk (by omega)
  have hnotclA : ¬ stA.closed = true := by rw [hclA]; exact Bool.false_ne_true
  have hnn : ¬ n < 0 := by omega
  obtain ⟨stB, heqB⟩ := readLoop_stored cdc fuel
    { stA with readbuffer := [], offset := 0 } n [] (sz - k) sz (pos + k)
    (hctA.trans hct) hdecA heofA hleftA hcleftA (by omega) hposA
    (by rw [hdataA]; omega)
    (by
      intro e he
      rcases Nat.eq_zero_or_pos k with h0 | hp
      · have hstA := hk0A h0
        subst h0
        rw [hstA] at he
        rw [hexp] at he
        injection he with he
        rw [hstA, ← he]
        simpa using hcv
      · rw [hkposA hp] at he
        cases he)
    hn0 hfuel
  have hreadA : readM cdc fuel stA (some n) =
      readLoop cdc fuel { stA with readbuffer := [], offset := 0 } n [] := by
    simp only [readM, if_neg hnotclA, if_neg hnn, hbufA, hoffA, List.length_nil,
      List.drop_nil, Nat.cast_zero, add_zero, sub_zero]
  have hdt : ((st.fileobj.data.drop pos).take sz).drop k =
      (st.fileobj.data.drop (pos + k)).take (sz - k) := by
    simp [List.drop_take, List.drop_drop, Nat.add_comm]
  have hnotcl : ¬ st.closed = true := by rw [hclosed]; exact Bool.false_ne_true
  obtain ⟨stC, heqC, -⟩ := readAllLoop_stored_ok cdc fuel
    { st with readbuffer := [], offset := 0 } (st.readbuffer.drop st.offset)
    sz sz pos hct hdec heof hL hC (le_refl sz) hpos havail
    (by intro e he; rw [hexp] at he; injection he with he; rw [← he]; exact hcv)
    hfuel
  refine ⟨stA, stB, stC, hseekEq, ?_, ?_⟩
  · rw [hreadA, heqB, hdt, List.nil_append, hdataA]
  · simp only [readM, if_neg hnotcl]
    rw [heqC, hbuf, List.drop_nil, List.nil_append]

theorem c5_witness :
    ∃ stA stB stC,
      seekM fixtureCodec 10 (freshStored helloEntryData 0 5 (crc32 helloBytes 0))
          ((2 : Nat) : Int) 0 = .ok (((2 : Nat) : Int), stA) ∧
      readM fixtureCodec 10 stA (some 2) =
        .ok ((((helloEntryData.drop 0).take 5).drop 2).take (2 : Int).toNat, stB) ∧
      readM fixtureCodec 10 (freshStored helloEntryData 0 5 (crc32 helloBytes 0))
          none = .ok ((helloEntryData.drop 0).take 5, stC) :=
  c5_seek_read_slice fixtureCodec 10
    (freshStored helloEntryData 0 5 (crc32 helloBytes 0)) 5 0 (crc32 helloBytes 0)
    2 2 rfl rfl rfl rfl rfl rfl rfl rfl rfl rfl rfl (by decide) rfl (by rfl)
    (by decide) (by decide) (by decide)

theorem updateCrc_fields (st : ExtState) (d : List Nat) (st' : ExtState)
    (h : updateCrc st d = .ok st') :
    st'.left = st.left ∧ st'.eof = st.eof ∧ st'.readbuffer = st.readbuffer ∧
    st'.offset = st.offset ∧ st'.closed = st.closed := by
  unfold updateCrc at h
  split at h
  · injection h with h
    subst h
    exact ⟨rfl, rfl, rfl, rfl, rfl⟩
  · dsimp only at h
    split at h
    · cases h
    · injection h with h
      subst h
      exact ⟨rfl, rfl, rfl, rfl, rfl⟩

theorem read1Finish_trunc (st : ExtState) (d out : List Nat) (st' : ExtState)
    (h : read1Finish st d = .ok (out, st')) (h0 : 0 ≤ st.left) :
    out = pySliceTo d st.left ∧ (out.length : Int) ≤ st.left ∧
    st'.left = st.left - out.length ∧ 0 ≤ st'.left ∧
    (st'.left ≤ 0 → st'.eof = true) ∧
    st'.readbuffer = st.readbuffer ∧ st'.offset = st.offset ∧
    st'.closed = st.closed := by
  have hlen : ((pySliceTo d st.left).length : Int) ≤ st.left := by
    rw [pySliceTo, if_pos h0, List.length_take]
    omega
  simp only [read1Finish] at h
  split at h
  · cases h
  · rename_i stu hu
    injection h with h
    cases h
    obtain ⟨hl, he, hrb, hofs, hcl⟩ := updateCrc_fields _ _ _ hu
    by_cases hle : st.left - ((pySliceTo d st.left).length : Int) ≤ 0
    · rw [if_pos hle] at hl he hrb hofs hcl
      dsimp only at hl he hrb hofs hcl
      exact ⟨rfl, hlen, hl, by omega, fun _ => he, hrb, hofs, hcl⟩
    · rw [if_neg hle] at hl he hrb hofs hcl
      dsimp only at hl he hrb hofs hcl
      refine ⟨rfl, hlen, hl, by omega, fun hz => absurd hz (by omega), hrb, hofs, hcl⟩

theorem read2_fields (st : ExtState) (n : Int) (p : List Nat × ExtState)
    (h : read2 st n = .ok p) :
    p.2.left = st.left ∧ p.2.readbuffer = st.readbuffer ∧ p.2.offset = st.offset ∧
    p.2.closed = st.closed ∧ p.2.compressType = st.compressType := by
  unfold read2 at h
  split at h
  · injection h with h; cases h; exact ⟨rfl, rfl, rfl, rfl, rfl⟩
  · simp only [FileObj.read] at h
    split at h
    · cases h
    · split at h
      · injection h with h; cases h; exact ⟨rfl, rfl, rfl, rfl, rfl⟩
      · cases h

theorem read1_left_bound (cdc : Codec) (st : ExtState) (n : Int)
    (out : List Nat) (st' : ExtState)
    (h : read1 cdc st n = .ok (out, st')) (h0 : 0 ≤ st.left) :
    0 ≤ st'.left ∧ (out.length : Int) + st'.left ≤ st.left ∧
    st'.readbuffer = st.readbuffer ∧ st'.offset = st.offset ∧
    st'.closed = st.closed := by
  unfold read1 at h
  split at h
  · injection h with h; cases h
    exact ⟨h0, by simp, rfl, rfl, rfl⟩
  · by_cases hdef : st.compressType = ZIP_DEFLATED
    · rw [if_pos hdef] at h
      by_cases htl : (((cdc.dUnconsumedTail st.dstate).length : Nat) : Int) < n
      · rw [if_pos htl] at h
        simp only [bind, Except.bind, pure, Except.pure] at h
        split at h
        · simp at h
        · rename_i v2 heq2
          obtain ⟨h1, h2, h3, h4, h5⟩ := read2_fields _ _ _ heq2
          dsimp only at h
          rw [h5, if_neg (by rw [hdef]; decide), if_pos hdef] at h
          obtain ⟨-, hb, hl, hp, -, hrb, hofs, hcl⟩ :=
            read1Finish_trunc _ _ _ _ h (by dsimp only; omega)
          dsimp only at hb hl hp hrb hofs hcl
          exact ⟨hp, by omega, hrb.trans h2, hofs.trans h3, hcl.trans h4⟩
      · rw [if_neg htl] at h
        simp only [bind, Except.bind, pure, Except.pure] at h
        dsimp only at h
        rw [if_neg (by rw [hdef]; decide), if_pos hdef] at h
        obtain ⟨-, hb, hl, hp, -, hrb, hofs, hcl⟩ :=
          read1Finish_trunc _ _ _ _ h (by dsimp only; omega)
        dsimp only at hb hl hp hrb hofs hcl
        exact ⟨hp, by omega, hrb, hofs, hcl⟩
    · rw [if_neg hdef] at h
      simp only [bind, Except.bind] at h
      split at h
      · cases h
      · rename_i v heqv
        obtain ⟨h1, h2, h3, h4, h5⟩ := read2_fields _ _ _ heqv
        by_cases hsto : st.compressType = ZIP_STORED
        · rw [h5, if_pos hsto] at h
          obtain ⟨-, hb, hl, hp, -, hrb, hofs, hcl⟩ :=
            read1Finish_trunc _ _ _ _ h (by dsimp only; omega)
          dsimp only at hb hl hp hrb hofs hcl
          exact ⟨hp, by omega, hrb.trans h2, hofs.trans h3, hcl.trans h4⟩
        · rw [h5, if_neg hsto, if_neg hdef] at h
          obtain ⟨-, hb, hl, hp, -, hrb, hofs, hcl⟩ :=
            read1Finish_trunc _ _ _ _ h (by dsimp only; omega)
          dsimp only at hb hl hp hrb hofs hcl
          exact ⟨hp, by omega, hrb.trans h2, hofs.trans h3, hcl.trans h4⟩

theorem readAllLoop_bound (cdc : Codec) (fuel : Nat) :
    ∀ (st : ExtState) (buf out : List Nat) (st' : ExtState),
    readAllLoop cdc fuel st buf = .ok (out, st') →
    0 ≤ st.left → (st.offset : Int) ≤ st.readbuffer.length →
    (out.length : Int) + st'.left + st'.readbuffer.length - st'.offset ≤
      (buf.length : Int) + st.left + st.readbuffer.length - st.offset ∧
    0 ≤ st'.left ∧ (st'.offset : Int) ≤ st'.readbuffer.length := by
  induction fuel with
  | zero => intro st buf out st' h _ _; cases h
  | succ f IH =>
    intro st buf out st' h h0 h1
    rw [readAllLoop] at h
    split at h
    · injection h with h
      cases h
      exact ⟨by omega, h0, h1⟩
    · simp only [bind, Except.bind] at h
      split at h
      · cases h
      · rename_i v heqv
        obtain ⟨hp0, hb, hrb, hofs, -⟩ :=
          read1_left_bound cdc st _ v.1 v.2 heqv h0
        obtain ⟨hA, hB, hC⟩ := IH v.2 (buf ++ v.1) out st' h hp0
          (by rw [hofs, hrb]; exact h1)
        push_cast [List.length_append] at hA
        rw [hrb, hofs] at hA
        exact ⟨by omega, hB, hC⟩

theorem readLoop_bound (cdc : Codec) (fuel : Nat) :
    ∀ (st : ExtState) (n : Int) (buf out : List Nat) (st' : ExtState),
    readLoop cdc fuel st n buf = .ok (out, st') →
    0 ≤ st.left → (st.offset : Int) ≤ st.readbuffer.length →
    (out.length : Int) + st'.left + st'.readbuffer.length - st'.offset ≤
      (buf.length : Int) + st.left + st.readbuffer.length - st.offset ∧
    0 ≤ st'.left ∧ (st'.offset : Int) ≤ st'.readbuffer.length := by
  induction fuel with
  | zero => intro st n buf out st' h _ _; cases h
  | succ f IH =>
    intro st n buf out st' h h0 h1
    rw [readLoop] at h
    split at h
    · rename_i hcond
      simp only [bind, Except.bind] at h
      split at h
      · cases h
      · rename_i v heqv
        obtain ⟨hp0, hb, hrb, hofs, -⟩ :=
          read1_left_bound cdc st _ v.1 v.2 heqv h0
        split at h
        · rename_i hlt
          injection h with h
          cases h
          have hpl : (pySliceTo v.1 n).length = n.toNat := by
            rw [pySliceTo, if_pos (le_of_lt hcond.1), List.length_take]
            omega
          refine ⟨?_, hp0, ?_⟩
          · push_cast [List.length_append, hpl]
            omega
          · push_cast
            omega
        · obtain ⟨hA, hB, hC⟩ := IH v.2 (n - v.1.length) (buf ++ v.1) out st' h hp0
            (by rw [hofs, hrb]; exact h1)
          push_cast [List.length_append] at hA
          rw [hrb, hofs] at hA
          exact ⟨by omega, hB, hC⟩
    · injection h with h
      cases h
      exact ⟨by omega, h0, h1⟩

theorem readM_bound (cdc : Codec) (fuel : Nat) (st : ExtState)
    (nopt : Option Int) (out : List Nat) (st' : ExtState)
    (h : readM cdc fuel st nopt = .ok (out, st'))
    (h0 : 0 ≤ st.left) (h1 : (st.offset : Int) ≤ st.readbuffer.length) :
    (out.length : Int) + st'.left + st'.readbuffer.length - st'.offset ≤
      st.left + st.readbuffer.length - st.offset ∧
    0 ≤ st'.left ∧ (st'.offset : Int) ≤ st'.readbuffer.length := by
  simp only [readM] at h
  split at h
  · cases h
  · split at h
    · obtain ⟨hA, hB, hC⟩ := readAllLoop_bound cdc fuel _ _ out st' h h0 (by simp)
      push_cast [List.length_drop, List.length_nil] at hA
      exact ⟨by omega, hB, hC⟩
    · split at h
      · obtain ⟨hA, hB, hC⟩ := readAllLoop_bound cdc fuel _ _ out st' h h0 (by simp)
        push_cast [List.length_drop, List.length_nil] at hA
        exact ⟨by omega, hB, hC⟩
      · split at h
        · rename_i hlt
          injection h with h
          cases h
          refine ⟨?_, h0, ?_⟩
          · push_cast [List.length_drop, List.length_take]
            omega
          · push_cast
            omega
        · obtain ⟨hA, hB, hC⟩ := readLoop_bound cdc fuel _ _ _ out st' h h0 (by simp)
          push_cast [List.length_drop, List.length_nil] at hA
          exact ⟨by omega, hB, hC⟩

theorem runReads_bound (cdc : Codec) (fuel : Nat) :
    ∀ (ns : List (Option Int)) (st : ExtState),
    0 ≤ st.left → (st.offset : Int) ≤ st.readbuffer.length →
    ((runReads cdc fuel st ns).length : Int) ≤
      st.left + st.readbuffer.length - st.offset := by
  intro ns
  induction ns with
  | nil =>
    intro st h0 h1
    simp only [runReads, List.length_nil, Nat.cast_zero]
    omega
  | cons n ns IH =>
    intro st h0 h1
    rcases hr : readM cdc fuel st n with e | p
    · simp only [runReads, hr, List.length_nil, Nat.cast_zero]
      omega
    · obtain ⟨hA, hB, hC⟩ := readM_bound cdc fuel st n p.1 p.2 hr h0 h1
      have hIH := IH p.2 hB hC
      simp only [runReads, hr]
      push_cast [List.length_append]
      omega

theorem initDecrypter_fields (st : ExtState) (p : Nat × ExtState)
    (h : initDecrypter st = .ok p) :
    p.2.left = st.left ∧ p.2.readbuffer = st.readbuffer ∧
    p.2.offset = st.offset := by
  simp only [initDecrypter, FileObj.read] at h
  split at h
  · cases h
  · split at h
    · cases h
    · split at h
      · cases h
      · injection h with h
        cases h
        exact ⟨rfl, rfl, rfl⟩

theorem zipExtFileInit_fresh (cdc : Codec) (f : FileObj) (zinfo : ZipInfoM)
    (pwd : Option (List Nat)) (st : ExtState)
    (h : zipExtFileInit cdc f zinfo pwd = .ok st) :
    st.left = (zinfo.fileSize : Int) ∧ st.readbuffer = [] ∧ st.offset = 0 := by
  simp only [zipExtFileInit, bind, Except.bind, pure, Except.pure] at h
  split at h
  · cases h
  · split at h
    · split at h
      · split at h
        · split at h
          · cases h
          · rename_i p heqI
            split at h
            · cases h
            · injection h with h
              cases h
              obtain ⟨h1, h2, h3⟩ := initDecrypter_fields _ _ heqI
              exact ⟨h1, h2, h3⟩
        · cases h
      · split at h
        · cases h
        · rename_i p heqI
          split at h
          · cases h
          · injection h with h
            cases h
            obtain ⟨h1, h2, h3⟩ := initDecrypter_fields _ _ heqI
            exact ⟨h1, h2, h3⟩
    · injection h with h
      cases h
      exact ⟨rfl, rfl, rfl⟩

/-- C6 (declared size is authoritative): the `_read1` tail truncates every
decompressed chunk to the remaining declared size `_left`, which never goes
negative, and EOF is forced once it reaches zero; consequently, for any
codec behaviour and any sequence of `read` calls on a reader built by
`ZipExtFile.__init__`, the cumulative output never exceeds the entry's
declared `file_size`. -/
theorem c6_declared_size_bounds_output (cdc : Codec) (fuel : Nat) :
    (∀ (st : ExtState) (d out : List Nat) (st' : ExtState),
      read1Finish st d = .ok (out, st') → 0 ≤ st.left →
      out = pySliceTo d st.left ∧ (out.length : Int) ≤ st.left ∧
      st'.left = st.left - out.length ∧ 0 ≤ st'.left ∧
      (st'.left ≤ 0 → st'.eof = true)) ∧
    (∀ (f : FileObj) (zinfo : ZipInfoM) (pwd : Option (List Nat)) (st : ExtState)
      (ns : List (Option Int)),
      zipExtFileInit cdc f zinfo pwd = .ok st →
      (runReads cdc fuel st ns).length ≤ zinfo.fileSize) := by
  constructor
  · intro st d out st' h h0
    obtain ⟨a, b, c, d2, e, -, -, -⟩ := read1Finish_trunc st d out st' h h0
    exact ⟨a, b, c, d2, e⟩
  · intro f zinfo pwd st ns hinit
    obtain ⟨h1, h2, h3⟩ := zipExtFileInit_fresh cdc f zinfo pwd st hinit
    have hb := runReads_bound cdc fuel ns st
      (by rw [h1]; exact_mod_cast Nat.zero_le _)
      (by rw [h2, h3]; simp)
    rw [h1, h2, h3] at hb
    simp only [List.length_nil, Nat.cast_zero, add_zero, sub_zero] at hb
    omega

theorem c6_witness :
    (runReads fixtureCodec 10 (freshStored helloEntryData 0 5 0)
      [some 2, none]).length ≤ c6Info.fileSize :=
  (c6_declared_size_bounds_output fixtureCodec 10).2 ⟨helloEntryData, 0, true⟩
    c6Info none (freshStored helloEntryData 0 5 0) [some 2, none] (by rfl)

end ModelInspect
